import Mathlib

/-!
Verification of the parity-processbot merge-queue core.

Strings from the Rust source are modelled as `List Char` (`Str`), the
RocksDB key-value store as an association list from keys to serialized
`MergeRequest` values, and every external effect (REST calls, git
subprocesses, HMAC computation) as an explicit oracle argument, so each
handler becomes a pure function from its inputs and oracle answers to its
result and database effect.  Definitions follow `src/webhook.rs` and
`src/companion.rs`; parts of the repository that are not present under
`src/` (the command constants, the companion regexes, the process-info
module) are modelled from the specification and marked as such in their
doc comments.
-/

namespace Processbot

/-- Rust `String` / `&str`, modelled as a list of characters. -/
abbrev Str := List Char

/-- Rust `str::to_lowercase` (the source only compares ASCII command words). -/
def strToLower (s : Str) : Str := s.map Char.toLower

/-- Whitespace as recognised by Rust `str::trim` on the inputs that occur here. -/
def isWsChar (c : Char) : Bool := c = ' ' || c = '\t' || c = '\n' || c = '\r'

/-- Rust `str::trim_start`. -/
def trimStart (s : Str) : Str := s.dropWhile isWsChar

/-- Rust `str::trim_end`. -/
def trimEnd (s : Str) : Str := (s.reverse.dropWhile isWsChar).reverse

/-- Rust `str::trim`. -/
def trim (s : Str) : Str := trimEnd (trimStart s)

/-- Does `s` start with the literal pattern `pat` (Rust `str::starts_with`)? -/
def startsWithL : Str → Str → Bool
  | [], _ => true
  | _ :: _, [] => false
  | p :: ps, c :: cs => p = c && startsWithL ps cs

/-- Rust `str::contains` for a literal pattern. -/
def containsSub (pat : Str) : Str → Bool
  | [] => startsWithL pat []
  | c :: cs => startsWithL pat (c :: cs) || containsSub pat cs

/-- Strip the literal `pat` from the front of a string, if present. -/
def stripLit : Str → Str → Option Str
  | [], s => some s
  | _ :: _, [] => none
  | p :: ps, c :: cs => if p = c then stripLit ps cs else none

/-- Rust `str::split(sep)` collected into a vector: splitting the empty
string yields one empty segment, never the empty list. -/
def rustSplit (sep : Char) : Str → List Str
  | [] => [[]]
  | c :: cs =>
    if c = sep then [] :: rustSplit sep cs
    else
      match rustSplit sep cs with
      | [] => [[c]]
      | l :: ls => (c :: l) :: ls

/-- Join lines with a newline separator (inverse of `rustSplit` on
newline-free lines). -/
def unlines : List Str → Str
  | [] => []
  | [l] => l
  | l :: ls => l ++ '\n' :: unlines ls

/-- Value of a decimal digit string, most significant digit first. -/
def natOfDigits (s : Str) : Nat := s.foldl (fun acc c => 10 * acc + (c.toNat - 48)) 0

/-- The decimal digit character for `n < 10`. -/
def digitChar : Nat → Char
  | 0 => '0' | 1 => '1' | 2 => '2' | 3 => '3' | 4 => '4'
  | 5 => '5' | 6 => '6' | 7 => '7' | 8 => '8' | 9 => '9'
  | _ => '0'

/-- Canonical decimal representation, on fuel (structural so that it
evaluates by reduction); any fuel above the value is enough. -/
def natDigitsFuel : Nat → Nat → Str
  | 0, _ => []
  | fuel + 1, n =>
    if n < 10 then [digitChar n]
    else natDigitsFuel fuel (n / 10) ++ [digitChar (n % 10)]

/-- Canonical decimal representation of a natural number. -/
def natDigits (n : Nat) : Str := natDigitsFuel (n + 1) n

/-! ## Data model (`src/webhook.rs`, `src/github.rs` via the spec) -/

/-- `MergeRequest` from `src/webhook.rs`: the persisted merge intent. -/
structure MergeRequest where
  owner : Str
  repo_name : Str
  number : Int
  html_url : Str
  requested_by : Str
deriving DecidableEq

/-- The RocksDB handle, modelled as an association list keyed by the
byte-string key; `dbPut` replaces any previous entry on the same key. -/
abbrev DB := List (Str × MergeRequest)

def dbGet (db : DB) (k : Str) : Option MergeRequest :=
  (db.find? (fun e => e.1 = k)).map (·.2)

def dbPut (k : Str) (v : MergeRequest) (db : DB) : DB :=
  (k, v) :: db.filter (fun e => e.1 ≠ k)

def dbDelete (k : Str) (db : DB) : DB :=
  db.filter (fun e => e.1 ≠ k)

/-- `StatusState` of a combined status (github API model per the spec). -/
inductive StatusState
  | Success | Pending | Failure | Error
deriving DecidableEq

/-- A combined status; only its `state` is inspected by the core. -/
structure CombinedStatus where
  state : StatusState
deriving DecidableEq

/-- One check run: a `status` string and an optional `conclusion` string. -/
structure CheckRun where
  status : Str
  conclusion : Option Str
deriving DecidableEq

/-- The check-runs response. -/
structure CheckRuns where
  check_runs : List CheckRun
deriving DecidableEq

/-- `ReviewState` (github API model per the spec). -/
inductive ReviewState
  | Approved | ChangesRequested | Commented
deriving DecidableEq

/-- A user, as far as the core inspects it. -/
structure User where
  login : Str
deriving DecidableEq

/-- A pull-request review. -/
structure Review where
  user : User
  state : Option ReviewState
  submitted_at : Int
deriving DecidableEq

/-- A label on a pull request. -/
structure Label where
  name : Str
deriving DecidableEq

/-- The head repository of a pull request. -/
structure HeadRepo where
  name : Str
  owner : Option User
deriving DecidableEq

/-- The head of a pull request. -/
structure Head where
  ref_field : Str
  sha : Str
  repo : HeadRepo
deriving DecidableEq

/-- A pull request, with the fields the core reads. -/
structure PullRequest where
  number : Int
  html_url : Str
  url : Str
  head : Head
  mergeable : Option Bool
  labels : List Label
  body : Option Str
deriving DecidableEq

/-- Bot configuration; the core reads only `min_reviewers`. -/
structure BotConfig where
  min_reviewers : Nat
deriving DecidableEq

/-- Modelled from the spec: `process::get_process` and the ProcessInfo type
live in `src/process.rs`, which is not present under `src/`.  Per the spec
(§3) the per-pull-request process info exposes exactly
`is_owner(login) → bool` and `is_empty() → bool`. -/
structure Process where
  is_owner : Str → Bool
  is_empty : Bool

/-- The typed error union of `src/error.rs` (not under `src/`), restricted
to the variants the handlers in `src/webhook.rs` construct and that
`handle_error` distinguishes; the commit-carrying variants keep their
carried (untrimmed) sha. -/
inductive BotError
  | Unmergeable
  | ApprovalMissing
  | ProcessInfoMissing
  | ProcessFileFailure
  | MergeFailure (commit_sha : Str)
  | CompanionFailure
  | ChecksFailed (commit_sha : Str)
  | HeadChanged (commit_sha : Str)
  | OrgMembershipFailure
  | RebaseFailure
deriving DecidableEq

/-! ## Command and marker literals

Modelled from the spec: the command constants (`AUTO_MERGE_REQUEST` and
friends) live in `src/constants.rs`, which is not present under `src/`.
The spec (§4.1, §6) fixes their lowercase trimmed forms. -/

def mergeLit : Str := "bot merge".toList
def mergeForceLit : Str := "bot merge force".toList
def mergeCancelLit : Str := "bot merge cancel".toList
def compareReleaseLit : Str := "bot compare substrate".toList
def rebaseLit : Str := "bot rebase".toList
def burninLit : Str := "bot burnin".toList
def successLit : Str := "success".toList
def completedLit : Str := "completed".toList
def insubstantialLit : Str := "insubstantial".toList
def substrateLit : Str := "substrate".toList
def polkadotLit : Str := "polkadot".toList
def botLoginLit : Str := "parity-processbot[bot]".toList
def tryingMergeLit : Str := "Trying merge.".toList
def waitingLit : Str := "Waiting for commit status.".toList
def mergeCancelledLit : Str := "Merge cancelled.".toList
def rebasingLit : Str := "Rebasing.".toList

/-! ## Companion-reference parser (`src/companion.rs`)

The two regexes `COMPANION_LONG_REGEX` and `COMPANION_SHORT_REGEX` are
defined in `src/constants.rs`, which is not present under `src/`.
Modelled from the spec (§4.2, §8): both forms are introduced by a
case-insensitive `companion:` marker and must sit on a single physical
line; the long form is
`companion: <scheme>://<host>/<owner>/<repo>/pull/<number>[?query]` and
parses to the canonical URL `https://<host>/<owner>/<repo>/pull/<number>`
with the query stripped; the short form is
`companion: <owner>/<repo>#<number>` and synthesizes the same canonical
URL.  The combination `long.or(short)` is `companion_parse` in
`src/companion.rs` itself. -/

/-- Case-insensitive character comparison used by the marker regexes. -/
def charEqCI (p c : Char) : Bool := p.toLower = c.toLower

/-- Case-insensitive literal-pattern test at the start of a string. -/
def startsWithCI : Str → Str → Bool
  | [], _ => true
  | _ :: _, [] => false
  | p :: ps, c :: cs => charEqCI p c && startsWithCI ps cs

/-- The companion marker literal. -/
def markerLit : Str := "companion:".toList

/-- Characters allowed inside a URL scheme segment. -/
def schemeChar (c : Char) : Bool := !(c = ':' || c = '/' || c = ' ' || c = '\n')

/-- Characters allowed inside a host / owner / repo segment. -/
def segChar (c : Char) : Bool :=
  !(c = '/' || c = ' ' || c = '?' || c = '#' || c = ':' || c = '\n')

/-- The canonical pull-request URL the parser reports. -/
def canonicalUrl (host owner repo : Str) (ds : Str) : Str :=
  "https://".toList ++ host ++ '/' :: owner ++ '/' :: repo
    ++ "/pull/".toList ++ ds

/-- The largest value Rust's `str::parse::<i64>` accepts on an unsigned
digit string (`i64::MAX`). -/
def i64Max : Nat := 9223372036854775807

/-- Parse the long companion form after the `companion:` marker.  The
captured digit string goes through `.parse::<i64>().ok()?`
(`src/companion.rs` lines 325-330), so a value beyond `i64::MAX` yields
no match. -/
def parseLongAfter (s0 : Str) : Option (Str × Str × Str × Nat) :=
  let s := s0.dropWhile (fun c => c = ' ')
  let scheme := s.takeWhile schemeChar
  if scheme = [] then none else
  (stripLit "://".toList (s.dropWhile schemeChar)).bind (fun s1 =>
    let host := s1.takeWhile segChar
    if host = [] then none else
    (stripLit "/".toList (s1.dropWhile segChar)).bind (fun s2 =>
      let owner := s2.takeWhile segChar
      if owner = [] then none else
      (stripLit "/".toList (s2.dropWhile segChar)).bind (fun s3 =>
        let repo := s3.takeWhile segChar
        if repo = [] then none else
        (stripLit "/pull/".toList (s3.dropWhile segChar)).bind (fun s4 =>
          let ds := s4.takeWhile Char.isDigit
          if ds = [] then none else
          if natOfDigits ds ≤ i64Max then
            some (canonicalUrl host owner repo ds, owner, repo,
              natOfDigits ds)
          else none))))

/-- Parse the short companion form after the `companion:` marker.  As in
the long form, the digit string goes through `.parse::<i64>().ok()?`
(`src/companion.rs` lines 342-347). -/
def parseShortAfter (s0 : Str) : Option (Str × Str × Str × Nat) :=
  let s := s0.dropWhile (fun c => c = ' ')
  let owner := s.takeWhile segChar
  if owner = [] then none else
  (stripLit "/".toList (s.dropWhile segChar)).bind (fun s1 =>
    let repo := s1.takeWhile segChar
    if repo = [] then none else
    (stripLit "#".toList (s1.dropWhile segChar)).bind (fun s2 =>
      let ds := s2.takeWhile Char.isDigit
      if ds = [] then none else
      if natOfDigits ds ≤ i64Max then
        some (canonicalUrl "github.com".toList owner repo ds, owner, repo,
          natOfDigits ds)
      else none))

/-- Scan one physical line for a case-insensitive `companion:` marker
followed by a successful parse of the given form; the earliest matching
occurrence wins. -/
def scanWith (parse : Str → Option (Str × Str × Str × Nat)) :
    Str → Option (Str × Str × Str × Nat)
  | [] => none
  | c :: cs =>
    if startsWithCI markerLit (c :: cs) then
      match parse ((c :: cs).drop markerLit.length) with
      | some r => some r
      | none => scanWith parse cs
    else scanWith parse cs

/-- Line scan for the long companion form. -/
def scanLong : Str → Option (Str × Str × Str × Nat) := scanWith parseLongAfter

/-- Line scan for the short companion form. -/
def scanShort : Str → Option (Str × Str × Str × Nat) := scanWith parseShortAfter

/-- `companion_parse_long` from `src/companion.rs`: first line of the body
whose single-line long-form match succeeds. -/
def companion_parse_long (body : Str) : Option (Str × Str × Str × Nat) :=
  (rustSplit '\n' body).findSome? scanLong

/-- `companion_parse_short` from `src/companion.rs`. -/
def companion_parse_short (body : Str) : Option (Str × Str × Str × Nat) :=
  (rustSplit '\n' body).findSome? scanShort

/-- `companion_parse` from `src/companion.rs`: the long form is tried
first and wins (`companion_parse_long(body).or(companion_parse_short(body))`). -/
def companion_parse (body : Str) : Option (Str × Str × Str × Nat) :=
  match companion_parse_long body with
  | some r => some r
  | none => companion_parse_short body

/-! ## Changed-files computation (`src/companion.rs`, `update_companion_repository`) -/

/-- The `changed_files` vector of `update_companion_repository`
(`src/companion.rs` lines 230-232): the raw stdout of
`git diff --name-only SHA_before` is trimmed and split on newlines. -/
def changed_files (stdout : Str) : List Str := rustSplit '\n' (trim stdout)

/-- The guard of the reset branch (`src/companion.rs` line 235):
`changed_files.is_empty()`. -/
def takes_reset_branch (stdout : Str) : Bool := (changed_files stdout).isEmpty

/-! ## Policy engine (`src/webhook.rs`, `merge_allowed`) -/

/-- Stable insertion into a list ordered by ascending `submitted_at`:
the strict comparison places the inserted (originally earlier) review
before any review with an equal timestamp, matching itertools'
stable `sorted_by_key`. -/
def insertBySubmitted (r : Review) : List Review → List Review
  | [] => [r]
  | x :: xs =>
    if x.submitted_at < r.submitted_at then x :: insertBySubmitted r xs
    else r :: x :: xs

/-- `itertools::sorted_by_key(|r| r.submitted_at)`: stable ascending sort. -/
def sortBySubmitted : List Review → List Review
  | [] => []
  | r :: rs => insertBySubmitted r (sortBySubmitted rs)

/-- Count of reviews that are `Approved` and whose reviewer belongs to the
given team (the filtered counts in `merge_allowed`). -/
def approvedCountBy (team : List User) (reviews : List Review) : Nat :=
  (reviews.filter (fun r =>
    team.any (fun u => u.login = r.user.login) && r.state = some ReviewState.Approved)).length

/-- The core-dev approval threshold of `merge_allowed`
(`src/webhook.rs` lines 836-844): 1 if any label name contains the
substring `insubstantial`, else the configured `min_reviewers`. -/
def requiredCoreApprovals (labels : List Label) (cfg : BotConfig) : Nat :=
  if ∃ l ∈ labels, containsSub insubstantialLit l.name = true then 1
  else cfg.min_reviewers

/-- The latest (by `submitted_at`, descending) review from a login the
process info declares an owner, tested for `Approved`
(`src/webhook.rs` lines 893-898). -/
def latestOwnerApproved (process : Process) (reviews : List Review) : Bool :=
  ((sortBySubmitted reviews).reverse.find? (fun r => process.is_owner r.user.login)).elim
    false (fun r => r.state = some ReviewState.Approved)

/-- `merge_allowed` from `src/webhook.rs` (lines 799-927).  The team
lists, review list and process-info fetch results are passed in as the
answers of the corresponding REST calls; a failed process-info fetch is
the `ProcessFile` error path. -/
def merge_allowed (teamLeads coreDevs : List User) (reviews : List Review)
    (processRes : Except BotError Process) (pr : PullRequest) (cfg : BotConfig)
    (requested_by : Str) : Except BotError Unit :=
  if pr.mergeable.getD false = false then .error .Unmergeable
  else if ∃ lead ∈ teamLeads, lead.login = requested_by then .ok ()
  else
    if approvedCountBy coreDevs reviews ≥ requiredCoreApprovals pr.labels cfg
        ∨ approvedCountBy teamLeads reviews ≥ 1 then .ok ()
    else
      match processRes with
      | .error _ => .error .ProcessFileFailure
      | .ok process =>
        if latestOwnerApproved process reviews = true
            ∨ process.is_owner requested_by = true then .ok ()
        else if process.is_empty = true then .error .ProcessInfoMissing
        else .error .ApprovalMissing

/-- The decision ladder exactly as the specification words it (first match
wins, with the core-dev count rung and the team-lead approval rung as
separate rungs), for comparison with `merge_allowed`. -/
def merge_allowed_claim (teamLeads coreDevs : List User) (reviews : List Review)
    (process : Process) (pr : PullRequest) (cfg : BotConfig)
    (requested_by : Str) : Except BotError Unit :=
  if pr.mergeable.getD false = false then .error .Unmergeable
  else if ∃ lead ∈ teamLeads, lead.login = requested_by then .ok ()
  else if approvedCountBy coreDevs reviews ≥ requiredCoreApprovals pr.labels cfg then .ok ()
  else if approvedCountBy teamLeads reviews ≥ 1 then .ok ()
  else if latestOwnerApproved process reviews = true
      ∨ process.is_owner requested_by = true then .ok ()
  else if process.is_empty = true then .error .ProcessInfoMissing
  else .error .ApprovalMissing

/-! ## CI-readiness evaluator (`src/webhook.rs`, `ready_to_merge`) -/

/-- `ready_to_merge` from `src/webhook.rs` (lines 933-1048), with the
fetched combined status and check runs passed in: `Ok true` means merge
now, `Ok false` means wait, `ChecksFailed` is the failure outcome. -/
def ready_to_merge (pr : PullRequest) (status : CombinedStatus)
    (checks : CheckRuns) : Except BotError Bool :=
  match status.state with
  | .Success =>
    if ∀ r ∈ checks.check_runs, r.conclusion = some successLit then
      .ok true
    else if ∀ r ∈ checks.check_runs, r.status = completedLit then
      .error (.ChecksFailed pr.head.sha)
    else
      .ok false
  | .Pending => .ok false
  | .Failure => .error (.ChecksFailed pr.head.sha)
  | .Error => .error (.ChecksFailed pr.head.sha)

/-! ## Companion updater hook and queue writes (`src/webhook.rs`) -/

/-- `create_merge_request` from `src/webhook.rs` (lines 1053-1084): the
intent is serialized and written at the trimmed commit sha. -/
def create_merge_request (owner repo_name : Str) (number : Int)
    (html_url requested_by commit_sha : Str) (db : DB) : DB :=
  dbPut (trim commit_sha) ⟨owner, repo_name, number, html_url, requested_by⟩ db

/-- `wait_to_merge` from `src/webhook.rs` (lines 1088-1122): store the
intent, then post the waiting comment. -/
def wait_to_merge (owner repo_name : Str) (number : Int)
    (html_url requested_by commit_sha : Str) (db : DB) : DB × Str :=
  (create_merge_request owner repo_name number html_url requested_by commit_sha db,
   waitingLit)

/-- `update_companion` from `src/webhook.rs` (lines 1249-1368).  The git
pipeline `companion_update` is external; its outcome is the oracle
`updatedSha` (`some sha` on success, `none` on failure), and `compPr` is
the fetched companion pull request.  On success the companion is
re-queued via `wait_to_merge` under the trimmed updated sha with
requester `parity-processbot[bot]`. -/
def update_companion (updatedSha : Option Str) (compPr : PullRequest)
    (repo_name : Str) (pr : PullRequest) (db : DB) : Except BotError DB :=
  if repo_name = substrateLit then
    match pr.body with
    | some body =>
      match companion_parse body with
      | some (_comp_html_url, comp_owner, comp_repo, _comp_number) =>
        match updatedSha with
        | some sha =>
          .ok (wait_to_merge comp_owner comp_repo compPr.number compPr.html_url
                botLoginLit sha db).1
        | none => .error .CompanionFailure
      | none => .ok db
    | none => .ok db
  else .ok db

/-! ## Webhook resume path (`src/webhook.rs`, `checks_and_status`) -/

/-- Outcome of one resume-path execution: the database it leaves behind,
whether the merge REST call was issued, and the error (if any) it hands
to `handle_error`. -/
structure CSResult where
  db : DB
  mergeAttempted : Bool
  err : Option BotError
deriving DecidableEq

/-- `checks_and_status` from `src/webhook.rs` (lines 237-374).  The
pull-request re-fetch, the check-runs read, the combined-status read, the
merge call and the companion git pipeline are external; their answers are
the oracle arguments.  Mirrors the source's order: intent lookup at the
trimmed sha, head comparison, check-run conclusions first, then the
combined status. -/
def checks_and_status (fetchPr : Str → Str → Int → PullRequest)
    (checks : CheckRuns) (status : CombinedStatus) (mergeOk : Bool)
    (updatedSha : Option Str) (compPr : PullRequest)
    (commit_sha : Str) (db : DB) : CSResult :=
  match dbGet db (trim commit_sha) with
  | none => ⟨db, false, none⟩
  | some m =>
    let pr := fetchPr m.owner m.repo_name m.number
    if commit_sha = pr.head.sha then
      if ∀ r ∈ checks.check_runs, r.conclusion = some successLit then
        match status.state with
        | .Success =>
          if mergeOk then
            let db1 := dbDelete (trim pr.head.sha) db
            match update_companion updatedSha compPr m.repo_name pr db1 with
            | .ok db2 => ⟨db2, true, none⟩
            | .error e => ⟨db1, true, some e⟩
          else ⟨db, true, some (.MergeFailure pr.head.sha)⟩
        | .Failure => ⟨db, false, some (.ChecksFailed commit_sha)⟩
        | .Error => ⟨db, false, some (.ChecksFailed commit_sha)⟩
        | .Pending => ⟨db, false, none⟩
      else if ∀ r ∈ checks.check_runs, r.status = completedLit then
        ⟨db, false, some (.ChecksFailed commit_sha)⟩
      else ⟨db, false, none⟩
    else ⟨db, false, some (.HeadChanged commit_sha)⟩

/-- The database effect of `handle_error` (`src/webhook.rs` lines
1385-1486): only `Merge`, `HeadChanged` and `ChecksFailed` clean the
store, each deleting under the sha carried in the error, untrimmed. -/
def handle_error_db (e : BotError) (db : DB) : DB :=
  match e with
  | .MergeFailure sha => dbDelete sha db
  | .HeadChanged sha => dbDelete sha db
  | .ChecksFailed sha => dbDelete sha db
  | _ => db

/-- One full resume-path webhook: `checks_and_status` followed by
`handle_error` on its error, as the `webhook` funnel does. -/
def status_webhook_flow (fetchPr : Str → Str → Int → PullRequest)
    (checks : CheckRuns) (status : CombinedStatus) (mergeOk : Bool)
    (updatedSha : Option Str) (compPr : PullRequest)
    (commit_sha : Str) (db : DB) : CSResult :=
  let r := checks_and_status fetchPr checks status mergeOk updatedSha compPr commit_sha db
  match r.err with
  | some e => { r with db := handle_error_db e r.db }
  | none => r

/-! ## Command path (`src/webhook.rs`, `handle_comment`) -/

/-- The observable outcome of `handle_comment`: whether the
organization-membership check ran, whether `merge_allowed` was consulted,
the resulting database, the comments posted, whether the merge REST call
was issued, and the error (if any) handed to `handle_error`. -/
structure CommentResult where
  orgChecked : Bool
  policyConsulted : Bool
  db : DB
  comments : List Str
  mergeAttempted : Bool
  err : Option BotError
deriving DecidableEq

/-- `handle_comment` from `src/webhook.rs` (lines 385-685).  External
calls are oracles: `orgOk` is the organization-membership answer,
`status`/`checks` the readiness reads, `mergeOk` the merge call outcome,
`updatedSha`/`compPr` the companion pipeline, `diffLink` the computed
substrate diff URL, `rebaseOk` the rebase pipeline outcome, `burninMsg`
the burnin status comment.  The command is recognised on the lowercased,
trimmed body exactly in the source's branch order. -/
def handle_comment
    (teamLeads coreDevs : List User) (reviews : List Review)
    (processRes : Except BotError Process) (cfg : BotConfig)
    (orgOk : Bool) (status : CombinedStatus) (checks : CheckRuns)
    (mergeOk : Bool) (updatedSha : Option Str) (compPr : PullRequest)
    (diffLink : Str) (rebaseOk : Bool) (burninMsg : Str)
    (body requested_by owner repo_name : Str) (pr : PullRequest)
    (db : DB) : CommentResult :=
  if trim (strToLower body) = mergeLit then
    if orgOk = false then ⟨true, false, db, [], false, some .OrgMembershipFailure⟩
    else
      match merge_allowed teamLeads coreDevs reviews processRes pr cfg requested_by with
      | .error e => ⟨true, true, db, [], false, some e⟩
      | .ok _ =>
        match ready_to_merge pr status checks with
        | .error e => ⟨true, true, db, [], false, some e⟩
        | .ok true =>
          if mergeOk then
            match update_companion updatedSha compPr repo_name pr db with
            | .ok db2 => ⟨true, true, db2, [tryingMergeLit], true, none⟩
            | .error e => ⟨true, true, db, [tryingMergeLit], true, some e⟩
          else ⟨true, true, db, [tryingMergeLit], true, some (.MergeFailure pr.head.sha)⟩
        | .ok false =>
          let w := wait_to_merge owner repo_name pr.number pr.html_url
                     requested_by pr.head.sha db
          ⟨true, true, w.1, [w.2], false, none⟩
  else if trim (strToLower body) = mergeForceLit then
    if orgOk = false then ⟨true, false, db, [], false, some .OrgMembershipFailure⟩
    else
      match merge_allowed teamLeads coreDevs reviews processRes pr cfg requested_by with
      | .error e => ⟨true, true, db, [], false, some e⟩
      | .ok _ =>
        if mergeOk then
          match update_companion updatedSha compPr repo_name pr db with
          | .ok db2 => ⟨true, true, db2, [tryingMergeLit], true, none⟩
          | .error e => ⟨true, true, db, [tryingMergeLit], true, some e⟩
        else ⟨true, true, db, [tryingMergeLit], true, some (.MergeFailure pr.head.sha)⟩
  else if trim (strToLower body) = mergeCancelLit then
    ⟨false, false, dbDelete (trim pr.head.sha) db, [mergeCancelledLit], false, none⟩
  else if repo_name = polkadotLit ∧ trim (strToLower body) = compareReleaseLit then
    ⟨false, false, db, [diffLink], false, none⟩
  else if trim (strToLower body) = rebaseLit then
    ⟨false, false, db, [rebasingLit], false,
     if rebaseOk then none else some .RebaseFailure⟩
  else if startsWithL burninLit (trim (strToLower body)) then
    if orgOk = false then ⟨true, false, db, [], false, some .OrgMembershipFailure⟩
    else ⟨true, false, db, [burninMsg], false, none⟩
  else ⟨false, false, db, [], false, none⟩

/-! ## HTTP entry point (`src/webhook.rs`, `webhook` / `webhook_inner`) -/

/-- An inbound HTTP request as the handler inspects it. -/
structure HttpRequest where
  path : Str
  xHubSignature : Option Str
  body : List Nat
deriving DecidableEq

/-- The HTTP response returned to hyper. -/
structure HttpResponse where
  status : Nat
  respBody : Str
deriving DecidableEq

/-- Rust `str::replace` on fuel (each step consumes at least one input
character, so fuel equal to the input length is enough). -/
def strReplaceFuel (pat rep : Str) : Nat → Str → Str
  | 0, s => s
  | _ + 1, [] => []
  | fuel + 1, c :: cs =>
    if startsWithL pat (c :: cs) && !pat.isEmpty then
      rep ++ strReplaceFuel pat rep fuel ((c :: cs).drop pat.length)
    else c :: strReplaceFuel pat rep fuel cs

/-- Rust `str::replace` for a literal pattern. -/
def strReplace (pat rep : Str) (s : Str) : Str :=
  strReplaceFuel pat rep s.length s

/-- Hex value of one character (`base16::decode`). -/
def hexVal (c : Char) : Option Nat :=
  if '0' ≤ c ∧ c ≤ '9' then some (c.toNat - 48)
  else if 'a' ≤ c ∧ c ≤ 'f' then some (c.toNat - 87)
  else if 'A' ≤ c ∧ c ≤ 'F' then some (c.toNat - 55)
  else none

/-- `base16::decode` on the signature string. -/
def hexDecode : Str → Option (List Nat)
  | [] => some []
  | [_] => none
  | a :: b :: rest =>
    match hexVal a, hexVal b, hexDecode rest with
    | some x, some y, some l => some ((16 * x + y) :: l)
    | _, _, _ => none

/-- UTF-8 bytes of an (ASCII) string. -/
def strBytes (s : Str) : List Nat := s.map Char.toNat

/-- Errors `webhook` / `webhook_inner` construct themselves. -/
inductive WebhookError
  | MissingSignature
  | DecodeSignature
  | SignatureMismatch
  | Inner (e : BotError)
deriving DecidableEq

/-- `webhook_inner` from `src/webhook.rs` (lines 96-140): read the body,
strip `sha1=` from the header, hex-decode it, HMAC-verify against the
trimmed secret, then dispatch the payload.  The HMAC-SHA1 function and
the payload dispatch are the oracles `hmacFn` and `rest`. -/
def webhook_inner (hmacFn : List Nat → List Nat → List Nat) (secret : Str)
    (rest : Except BotError Unit) (req : HttpRequest) :
    Except WebhookError Unit :=
  match req.xHubSignature with
  | none => .error .MissingSignature
  | some sigStr =>
    match hexDecode (strReplace "sha1=".toList [] sigStr) with
    | none => .error .DecodeSignature
    | some sigBytes =>
      if sigBytes = hmacFn (strBytes (trim secret)) req.body then
        match rest with
        | .ok _ => .ok ()
        | .error e => .error (.Inner e)
      else .error .SignatureMismatch

/-- `webhook` from `src/webhook.rs` (lines 52-93): any other path gets
404; on `/webhook` the signature header is extracted (raising if absent),
`webhook_inner` runs and its error goes to `handle_error`, and the
response is `200 OK` with an empty body. -/
def webhook (hmacFn : List Nat → List Nat → List Nat) (secret : Str)
    (rest : Except BotError Unit) (req : HttpRequest) :
    Except WebhookError HttpResponse :=
  if req.path = "/webhook".toList then
    match req.xHubSignature with
    | none => .error .MissingSignature
    | some _ =>
      let _handled := webhook_inner hmacFn secret rest req
      .ok ⟨200, []⟩
  else .ok ⟨404, "Not found.".toList⟩

/-! ## Readiness as the specification words it -/

/-- Every check run concluded `success`. -/
def allChecksSuccessful (checks : CheckRuns) : Prop :=
  ∀ r ∈ checks.check_runs, r.conclusion = some successLit

/-- Every check run has status `completed`. -/
def allChecksCompleted (checks : CheckRuns) : Prop :=
  ∀ r ∈ checks.check_runs, r.status = completedLit

/-- The spec's *Ready* condition: combined status Success and every
check-run conclusion `success`. -/
def readinessReady (status : CombinedStatus) (checks : CheckRuns) : Prop :=
  status.state = .Success ∧ allChecksSuccessful checks

/-- The spec's *Failed* condition: combined status Failure or Error, or
Success with every check-run completed yet at least one concluded
non-success. -/
def readinessFailed (status : CombinedStatus) (checks : CheckRuns) : Prop :=
  status.state = .Failure ∨ status.state = .Error ∨
  (status.state = .Success ∧ allChecksCompleted checks ∧
    ∃ r ∈ checks.check_runs, r.conclusion ≠ some successLit)

instance decAllChecksSuccessful (checks : CheckRuns) :
    Decidable (allChecksSuccessful checks) :=
  decidable_of_iff (∀ r ∈ checks.check_runs, r.conclusion = some successLit)
    Iff.rfl

instance decAllChecksCompleted (checks : CheckRuns) :
    Decidable (allChecksCompleted checks) :=
  decidable_of_iff (∀ r ∈ checks.check_runs, r.status = completedLit) Iff.rfl

instance decReadinessReady (status : CombinedStatus) (checks : CheckRuns) :
    Decidable (readinessReady status checks) :=
  decidable_of_iff
    (status.state = .Success ∧ allChecksSuccessful checks) Iff.rfl

instance decReadinessFailed (status : CombinedStatus) (checks : CheckRuns) :
    Decidable (readinessFailed status checks) :=
  decidable_of_iff
    (status.state = .Failure ∨ status.state = .Error ∨
      (status.state = .Success ∧ allChecksCompleted checks ∧
        ∃ r ∈ checks.check_runs, r.conclusion ≠ some successLit)) Iff.rfl

/-! ## Store lemmas -/

theorem dbGet_put_self (k : Str) (v : MergeRequest) (db : DB) :
    dbGet (dbPut k v db) k = some v := by
  simp [dbGet, dbPut, List.find?]

theorem dbGet_delete_eq (k' : Str) (db : DB) (k : Str) :
    dbGet (dbDelete k' db) k = if k = k' then none else dbGet db k := by
  induction db with
  | nil => simp [dbGet, dbDelete]
  | cons e es ih =>
    by_cases hek : e.1 = k'
    · have h1 : dbDelete k' (e :: es) = dbDelete k' es := by
        simp [dbDelete, List.filter_cons, hek]
      rw [h1, ih]
      by_cases hk : k = k'
      · simp [hk]
      · have hek2 : ¬ e.1 = k := by
          intro hc; exact hk (by rw [← hc, hek])
        simp [hk, dbGet, List.find?_cons, hek2]

    · have h1 : dbDelete k' (e :: es) = e :: dbDelete k' es := by
        simp [dbDelete, List.filter_cons, hek]
      rw [h1]
      by_cases hke : e.1 = k
      · simp [dbGet, List.find?_cons, hke]
        intro hkk'
        exact hek (by rw [hke, hkk'])
      · simp [dbGet, List.find?_cons, hke] at ih ⊢
        exact ih

theorem dbGet_delete_self (k : Str) (db : DB) :
    dbGet (dbDelete k db) k = none := by
  rw [dbGet_delete_eq]; simp

theorem dbGet_delete_ne (k' : Str) (db : DB) (k : Str) (h : k ≠ k') :
    dbGet (dbDelete k' db) k = dbGet db k := by
  rw [dbGet_delete_eq]; simp [h]

theorem dbGet_put_ne (k' : Str) (v : MergeRequest) (db : DB) (k : Str)
    (h : k ≠ k') : dbGet (dbPut k' v db) k = dbGet db k := by
  have hne : ¬ k' = k := fun hc => h hc.symm
  have h1 : dbPut k' v db = (k', v) :: dbDelete k' db := rfl
  have h2 : dbGet ((k', v) :: dbDelete k' db) k = dbGet (dbDelete k' db) k := by
    simp [dbGet, List.find?_cons, hne]
  rw [h1, h2, dbGet_delete_eq]
  simp [h]

/-- `rustSplit` never yields the empty list of segments. -/
theorem rustSplit_ne_nil (sep : Char) (s : Str) : rustSplit sep s ≠ [] := by
  induction s with
  | nil => simp [rustSplit]
  | cons c cs ih =>
    unfold rustSplit
    by_cases h : c = sep
    · simp [h]
    · simp only [h, if_false]
      cases hs : rustSplit sep cs <;> simp

/-! ## Claim C4 -/

/-- C4 (code bug evidence): in `update_companion_repository` the
diff-names vector comes from `.trim().split('\n')`, which on an empty
diff output yields the one-element list containing the empty string, so
`changed_files.is_empty()` is false and the `git reset --hard SHA_before`
branch is never taken — contrary to the claim that the branch is taken
exactly when `git diff --name-only` prints no file names. -/
theorem c4_reset_branch_unreachable :
    changed_files [] = [[]] ∧ takes_reset_branch [] = false ∧
    ∀ stdout : Str, takes_reset_branch stdout = false := by
  refine ⟨rfl, rfl, fun s => ?_⟩
  unfold takes_reset_branch
  cases h : changed_files s with
  | nil => exact absurd h (rustSplit_ne_nil '\n' (trim s))
  | cons l ls => rfl

/-! ## Claim C10 -/

/-- C10: `create_merge_request` stores the intent under the trimmed
commit sha, while the failure-path cleanup in `handle_error` deletes
under the untrimmed sha carried inside the `Merge`, `HeadChanged` and
`ChecksFailed` errors; consequently, storing an intent for a sha and then
reporting one of those errors for that sha removes the stored intent iff
the carried sha equals its own trim. -/
theorem c10_untrimmed_cleanup_key (sha : Str) (m : MergeRequest) :
    ((dbGet (handle_error_db (.HeadChanged sha)
        (create_merge_request m.owner m.repo_name m.number m.html_url
          m.requested_by sha [])) (trim sha) = none) ↔ sha = trim sha)
  ∧ ((dbGet (handle_error_db (.ChecksFailed sha)
        (create_merge_request m.owner m.repo_name m.number m.html_url
          m.requested_by sha [])) (trim sha) = none) ↔ sha = trim sha)
  ∧ ((dbGet (handle_error_db (.MergeFailure sha)
        (create_merge_request m.owner m.repo_name m.number m.html_url
          m.requested_by sha [])) (trim sha) = none) ↔ sha = trim sha) := by
  have key : ∀ e : BotError, handle_error_db e
      (create_merge_request m.owner m.repo_name m.number m.html_url
        m.requested_by sha []) = dbDelete sha
      (dbPut (trim sha) ⟨m.owner, m.repo_name, m.number, m.html_url,
        m.requested_by⟩ []) →
      ((dbGet (handle_error_db e
        (create_merge_request m.owner m.repo_name m.number m.html_url
          m.requested_by sha [])) (trim sha) = none) ↔ sha = trim sha) := by
    intro e he
    rw [he, dbGet_delete_eq]
    by_cases h : trim sha = sha
    · simp [h, eq_comm]
    · have h2 : ¬ sha = trim sha := fun hc => h hc.symm
      simp [h, h2, dbGet_put_self]
  exact ⟨key _ rfl, key _ rfl, key _ rfl⟩

/-! ## Claim C8 -/

/-- C8: a request whose path is not `/webhook` receives 404; a request to
`/webhook` whose `x-hub-signature` header does not decode to the
HMAC-SHA1 of the body under the (trimmed) shared secret receives 200 OK
with an empty body; in both cases the handler returns normally rather
than raising. -/
theorem c8_webhook_routing (hmacFn : List Nat → List Nat → List Nat)
    (secret : Str) (rest : Except BotError Unit) (req : HttpRequest) :
    (req.path ≠ "/webhook".toList →
      webhook hmacFn secret rest req = .ok ⟨404, "Not found.".toList⟩)
  ∧ (∀ s, req.path = "/webhook".toList → req.xHubSignature = some s →
      hexDecode (strReplace "sha1=".toList [] s)
        ≠ some (hmacFn (strBytes (trim secret)) req.body) →
      webhook hmacFn secret rest req = .ok ⟨200, []⟩) := by
  constructor
  · intro h
    unfold webhook
    rw [if_neg h]
  · intro s hp hs _hmismatch
    unfold webhook
    rw [if_pos hp, hs]

/-- Closed instance of `c8_webhook_routing`: a wrong path yields 404, a
mismatched `sha1=`-prefixed signature yields an empty 200. -/
theorem c8_witness :
    webhook (fun _ _ => [1]) "s".toList (.ok ())
      ⟨"/other".toList, none, []⟩ = .ok ⟨404, "Not found.".toList⟩
  ∧ webhook (fun _ _ => [1]) "s".toList (.ok ())
      ⟨"/webhook".toList, some "sha1=00".toList, []⟩ = .ok ⟨200, []⟩ :=
  ⟨(c8_webhook_routing (fun _ _ => [1]) "s".toList (.ok ())
      ⟨"/other".toList, none, []⟩).1 (by decide),
   (c8_webhook_routing (fun _ _ => [1]) "s".toList (.ok ())
      ⟨"/webhook".toList, some "sha1=00".toList, []⟩).2
      "sha1=00".toList (by decide) rfl (by decide)⟩

/-! ## Claim C5 -/

/-- C5: on the webhook resume path, if a merge intent is stored for
commit `C` but the re-fetched pull request's head sha differs from `C`,
then `checks_and_status` emits `HeadChanged` without attempting a merge
and without touching the store, and after `handle_error` reports the
error no intent keyed by the referenced commit `C` remains. -/
theorem c5_head_changed_cleanup (fetchPr : Str → Str → Int → PullRequest)
    (checks : CheckRuns) (status : CombinedStatus) (mergeOk : Bool)
    (updatedSha : Option Str) (compPr : PullRequest)
    (C : Str) (db : DB) (m : MergeRequest)
    (hget : dbGet db (trim C) = some m)
    (hhead : C ≠ (fetchPr m.owner m.repo_name m.number).head.sha) :
    checks_and_status fetchPr checks status mergeOk updatedSha compPr C db
      = ⟨db, false, some (.HeadChanged C)⟩
  ∧ dbGet (status_webhook_flow fetchPr checks status mergeOk updatedSha
      compPr C db).db C = none := by
  have h1 : checks_and_status fetchPr checks status mergeOk updatedSha compPr C db
      = ⟨db, false, some (.HeadChanged C)⟩ := by
    unfold checks_and_status
    rw [hget]
    simp [hhead]
  refine ⟨h1, ?_⟩
  unfold status_webhook_flow
  rw [h1]
  simp [handle_error_db, dbGet_delete_self]

/-! ## Concrete fixtures for witnesses and counterexamples -/

/-- A concrete pull request with head sha `abc`. -/
def pr0 : PullRequest :=
  ⟨1, "url0".toList, "api0".toList,
   ⟨"branch0".toList, "abc".toList, ⟨"polkadot".toList, some ⟨"bob".toList⟩⟩⟩,
   some true, [], none⟩

/-- A concrete stored merge intent. -/
def m0 : MergeRequest :=
  ⟨"org".toList, "polkadot".toList, 1, "url0".toList, "alice".toList⟩

/-- A store holding `m0` under key `abc`. -/
def db0 : DB := [("abc".toList, m0)]

/-- Closed instance of `c5_head_changed_cleanup` at a store holding an
intent for `abc` while the fetched head is `def0`. -/
theorem c5_witness :
    checks_and_status
        (fun _ _ _ => { pr0 with head := { pr0.head with sha := "def0".toList } })
        ⟨[]⟩ ⟨.Success⟩ true none pr0 "abc".toList db0
      = ⟨db0, false, some (.HeadChanged "abc".toList)⟩
  ∧ dbGet (status_webhook_flow
        (fun _ _ _ => { pr0 with head := { pr0.head with sha := "def0".toList } })
        ⟨[]⟩ ⟨.Success⟩ true none pr0 "abc".toList db0).db "abc".toList = none :=
  c5_head_changed_cleanup
    (fun _ _ _ => { pr0 with head := { pr0.head with sha := "def0".toList } })
    ⟨[]⟩ ⟨.Success⟩ true none pr0 "abc".toList db0 m0 (by decide) (by decide)

/-! ## Claim C2 -/

/-- C2 (counterexample): at `checks_and_status`, a combined status of
Failure with one check run still in progress satisfies the claimed
*Failed* condition, yet the code consults check-run conclusions first and
treats the commit as pending: no `ChecksFailed` error is produced and the
result is a no-op. -/
theorem c2_counterexample :
    readinessFailed ⟨.Failure⟩ ⟨[⟨"in_progress".toList, none⟩]⟩
  ∧ checks_and_status (fun _ _ _ => pr0) ⟨[⟨"in_progress".toList, none⟩]⟩
      ⟨.Failure⟩ true none pr0 "abc".toList db0 = ⟨db0, false, none⟩
  ∧ ¬ (checks_and_status (fun _ _ _ => pr0) ⟨[⟨"in_progress".toList, none⟩]⟩
      ⟨.Failure⟩ true none pr0 "abc".toList db0).err
        = some (.ChecksFailed "abc".toList) := by
  refine ⟨Or.inl rfl, by decide, by decide⟩

/-- If `update_companion` fails, the error is the companion failure. -/
theorem update_companion_error (updatedSha : Option Str) (compPr : PullRequest)
    (repo_name : Str) (pr : PullRequest) (db : DB) (e : BotError)
    (h : update_companion updatedSha compPr repo_name pr db = .error e) :
    e = .CompanionFailure := by
  unfold update_companion at h
  by_cases hrn : repo_name = substrateLit
  · rw [if_pos hrn] at h
    cases hb : pr.body with
    | none => simp [hb] at h
    | some body =>
      simp only [hb] at h
      cases hcp : companion_parse body with
      | none => simp [hcp] at h
      | some quad =>
        obtain ⟨u, o, rp, n⟩ := quad
        simp only [hcp] at h
        cases hu : updatedSha with
        | none =>
          simp only [hu] at h
          injection h with h2
          exact h2.symm
        | some sha => simp [hu] at h
  · rw [if_neg hrn] at h
    cases h

/-- With a stored intent and an unchanged head, `checks_and_status`
reduces to its readiness dispatch. -/
theorem checks_and_status_found (fetchPr : Str → Str → Int → PullRequest)
    (checks : CheckRuns) (status : CombinedStatus) (mergeOk : Bool)
    (updatedSha : Option Str) (compPr : PullRequest) (C : Str) (db : DB)
    (m : MergeRequest) (hget : dbGet db (trim C) = some m)
    (hhead : C = (fetchPr m.owner m.repo_name m.number).head.sha) :
    checks_and_status fetchPr checks status mergeOk updatedSha compPr C db
      = (if ∀ r ∈ checks.check_runs, r.conclusion = some successLit then
           match status.state with
           | .Success =>
             if mergeOk then
               match update_companion updatedSha compPr m.repo_name
                   (fetchPr m.owner m.repo_name m.number)
                   (dbDelete (trim (fetchPr m.owner m.repo_name m.number).head.sha) db) with
               | .ok db2 => ⟨db2, true, none⟩
               | .error e =>
                 ⟨dbDelete (trim (fetchPr m.owner m.repo_name m.number).head.sha) db,
                  true, some e⟩
             else ⟨db, true,
               some (.MergeFailure (fetchPr m.owner m.repo_name m.number).head.sha)⟩
           | .Failure => ⟨db, false, some (.ChecksFailed C)⟩
           | .Error => ⟨db, false, some (.ChecksFailed C)⟩
           | .Pending => ⟨db, false, none⟩
         else if ∀ r ∈ checks.check_runs, r.status = completedLit then
           ⟨db, false, some (.ChecksFailed C)⟩
         else ⟨db, false, none⟩) := by
  unfold checks_and_status
  rw [hget]
  simp only []
  rw [if_pos hhead]

/-- The spec's Ready and Failed conditions never hold together. -/
theorem ready_failed_disjoint (status : CombinedStatus) (checks : CheckRuns)
    (hR : readinessReady status checks) (hF : readinessFailed status checks) :
    False := by
  obtain ⟨hst, hS⟩ := hR
  rcases hF with h | h | ⟨-, -, r, hr, hne⟩
  · rw [hst] at h; cases h
  · rw [hst] at h; cases h
  · exact hne (hS r hr)

/-- `ready_to_merge` equals the three-way dispatch on the spec's Ready
and Failed conditions. -/
theorem ready_to_merge_spec_eq (pr : PullRequest) (status : CombinedStatus)
    (checks : CheckRuns) :
    ready_to_merge pr status checks =
      (if readinessReady status checks then .ok true
       else if readinessFailed status checks then .error (.ChecksFailed pr.head.sha)
       else .ok false) := by
  obtain ⟨st⟩ := status
  cases st
  case Success =>
    by_cases hS : ∀ r ∈ checks.check_runs, r.conclusion = some successLit
    · have h1 : readinessReady ⟨.Success⟩ checks := ⟨rfl, hS⟩
      simp only [ready_to_merge]
      rw [if_pos hS, if_pos h1]
    · have h1 : ¬ readinessReady ⟨.Success⟩ checks := fun h => hS h.2
      by_cases hC2 : ∀ r ∈ checks.check_runs, r.status = completedLit
      · have hex : ∃ r ∈ checks.check_runs, r.conclusion ≠ some successLit := by
          by_contra hno
          push_neg at hno
          exact hS hno
        have h2 : readinessFailed ⟨.Success⟩ checks :=
          Or.inr (Or.inr ⟨rfl, hC2, hex⟩)
        simp only [ready_to_merge]
        rw [if_neg hS, if_pos hC2, if_neg h1, if_pos h2]
      · have h2 : ¬ readinessFailed ⟨.Success⟩ checks := by
          rintro (h | h | ⟨-, hC, -⟩)
          · cases h
          · cases h
          · exact hC2 hC
        simp only [ready_to_merge]
        rw [if_neg hS, if_neg hC2, if_neg h1, if_neg h2]
  case Pending =>
    have h1 : ¬ readinessReady ⟨.Pending⟩ checks := fun h => by cases h.1
    have h2 : ¬ readinessFailed ⟨.Pending⟩ checks := by
      rintro (h | h | ⟨h, -, -⟩) <;> cases h
    simp only [ready_to_merge]
    rw [if_neg h1, if_neg h2]
  case Failure =>
    have h1 : ¬ readinessReady ⟨.Failure⟩ checks := fun h => by cases h.1
    have h2 : readinessFailed ⟨.Failure⟩ checks := Or.inl rfl
    simp only [ready_to_merge]
    rw [if_neg h1, if_pos h2]
  case Error =>
    have h1 : ¬ readinessReady ⟨.Error⟩ checks := fun h => by cases h.1
    have h2 : readinessFailed ⟨.Error⟩ checks := Or.inr (Or.inl rfl)
    simp only [ready_to_merge]
    rw [if_neg h1, if_pos h2]

/-- C2 (amended): on the command path, `ready_to_merge` classifies
readiness exactly as the claim states — Ready iff the combined status is
Success and every check-run conclusion is `success`; Failed
(`ChecksFailed`) iff the status is Failure or Error, or Success with
every run completed yet some conclusion non-success; Pending otherwise.
On the webhook resume path `checks_and_status` consults check-run
conclusions first: with a stored intent, an unchanged head and a
succeeding merge call, the merge is attempted iff every conclusion is
`success` and the status is Success, and `ChecksFailed` is emitted iff
either every conclusion is `success` and the status is Failure or Error,
or not every conclusion is `success` but every run is completed — so a
Failure or Error status with an incomplete check run is treated there as
pending, not as failed. -/
theorem c2_readiness_classification (pr : PullRequest) (status : CombinedStatus)
    (checks : CheckRuns) :
    (ready_to_merge pr status checks = .ok true ↔ readinessReady status checks)
  ∧ (ready_to_merge pr status checks = .error (.ChecksFailed pr.head.sha)
      ↔ readinessFailed status checks)
  ∧ (ready_to_merge pr status checks = .ok false
      ↔ (¬ readinessReady status checks ∧ ¬ readinessFailed status checks))
  ∧ (∀ (fetchPr : Str → Str → Int → PullRequest) (updatedSha : Option Str)
        (compPr : PullRequest) (C : Str) (db : DB) (m : MergeRequest),
      dbGet db (trim C) = some m →
      C = (fetchPr m.owner m.repo_name m.number).head.sha →
      (((checks_and_status fetchPr checks status true updatedSha compPr C db).mergeAttempted
          = true)
        ↔ (allChecksSuccessful checks ∧ status.state = .Success))
      ∧ (((checks_and_status fetchPr checks status true updatedSha compPr C db).err
          = some (.ChecksFailed C))
        ↔ ((allChecksSuccessful checks
              ∧ (status.state = .Failure ∨ status.state = .Error))
            ∨ (¬ allChecksSuccessful checks ∧ allChecksCompleted checks)))) := by
  refine ⟨?_, ?_, ?_, ?_⟩
  · rw [ready_to_merge_spec_eq]
    split_ifs with h1 h2
    · simp [h1]
    · exact iff_of_false (by simp) (fun hR => ready_failed_disjoint status checks hR h2)
    · exact iff_of_false (by simp) h1
  · rw [ready_to_merge_spec_eq]
    split_ifs with h1 h2
    · exact iff_of_false (by simp) (fun hF => ready_failed_disjoint status checks h1 hF)
    · exact iff_of_true rfl h2
    · exact iff_of_false (by simp) h2
  · rw [ready_to_merge_spec_eq]
    split_ifs with h1 h2
    · exact iff_of_false (by simp) (fun h => h.1 h1)
    · exact iff_of_false (by simp) (fun h => h.2 h2)
    · exact iff_of_true rfl ⟨h1, h2⟩
  · intro fetchPr updatedSha compPr C db m hget hhead
    obtain ⟨st⟩ := status
    rw [checks_and_status_found fetchPr checks ⟨st⟩ true updatedSha compPr C db m
      hget hhead]
    by_cases hS : ∀ r ∈ checks.check_runs, r.conclusion = some successLit
    · rw [if_pos hS]
      cases st with
      | Success =>
        cases huc : update_companion updatedSha compPr m.repo_name
            (fetchPr m.owner m.repo_name m.number)
            (dbDelete (trim (fetchPr m.owner m.repo_name m.number).head.sha) db) with
        | ok db2 =>
          refine ⟨iff_of_true rfl ⟨hS, rfl⟩, iff_of_false (by simp) ?_⟩
          rintro (⟨-, h | h⟩ | ⟨hn, -⟩)
          · cases h
          · cases h
          · exact hn hS
        | error e =>
          have he := update_companion_error _ _ _ _ _ _ huc
          refine ⟨iff_of_true rfl ⟨hS, rfl⟩, iff_of_false (by simp [he]) ?_⟩
          rintro (⟨-, h | h⟩ | ⟨hn, -⟩)
          · cases h
          · cases h
          · exact hn hS
      | Pending =>
        refine ⟨iff_of_false (by simp) ?_, iff_of_false (by simp) ?_⟩
        · rintro ⟨-, h⟩
          cases h
        · rintro (⟨-, h | h⟩ | ⟨hn, -⟩)
          · cases h
          · cases h
          · exact hn hS
      | Failure =>
        refine ⟨iff_of_false (by simp) ?_, iff_of_true rfl (Or.inl ⟨hS, Or.inl rfl⟩)⟩
        rintro ⟨-, h⟩
        cases h
      | Error =>
        refine ⟨iff_of_false (by simp) ?_, iff_of_true rfl (Or.inl ⟨hS, Or.inr rfl⟩)⟩
        rintro ⟨-, h⟩
        cases h
    · by_cases hCp : ∀ r ∈ checks.check_runs, r.status = completedLit
      · rw [if_neg hS, if_pos hCp]
        refine ⟨iff_of_false (by simp) (fun h => hS h.1),
          iff_of_true rfl (Or.inr ⟨hS, hCp⟩)⟩
      · rw [if_neg hS, if_neg hCp]
        refine ⟨iff_of_false (by simp) (fun h => hS h.1),
          iff_of_false (by simp) ?_⟩
        rintro (⟨h, -⟩ | ⟨-, h⟩)
        · exact hS h
        · exact hCp h

/-- Closed instance of `c2_readiness_classification`: with every check
concluded `success` and a Success combined status, the resume path
attempts the merge. -/
theorem c2_witness :
    (checks_and_status (fun _ _ _ => pr0) ⟨[]⟩ ⟨.Success⟩ true none pr0
      "abc".toList db0).mergeAttempted = true :=
  ((c2_readiness_classification pr0 ⟨.Success⟩ ⟨[]⟩).2.2.2
      (fun _ _ _ => pr0) none pr0 "abc".toList db0 m0 (by decide)
      (by decide)).1.mpr ⟨by decide, rfl⟩

/-! ## Claim C3 -/

/-- C3: `merge_allowed` implements the specification's first-match-wins
decision ladder — refuse Unmergeable when the mergeable flag is absent or
false; else allow a substrateteamleads requester; else allow when the
core-dev approval count reaches the insubstantial-aware threshold, or at
least one team-lead approval exists; else allow when the latest review
from a process owner is Approved or the requester is an owner; else
refuse ProcessInfo when the process info is empty and Approval otherwise.
Stated as equality with the ladder transcribed rung by rung from the
claim, so exactly one outcome results and earlier rungs take
precedence. -/
theorem c3_merge_allowed_ladder (teamLeads coreDevs : List User)
    (reviews : List Review) (process : Process) (pr : PullRequest)
    (cfg : BotConfig) (requested_by : Str) :
    merge_allowed teamLeads coreDevs reviews (.ok process) pr cfg requested_by
      = merge_allowed_claim teamLeads coreDevs reviews process pr cfg
          requested_by := by
  unfold merge_allowed merge_allowed_claim
  by_cases h1 : pr.mergeable.getD false = false
  · rw [if_pos h1, if_pos h1]
  · rw [if_neg h1, if_neg h1]
    by_cases h2 : ∃ lead ∈ teamLeads, lead.login = requested_by
    · rw [if_pos h2, if_pos h2]
    · rw [if_neg h2, if_neg h2]
      by_cases h3 : approvedCountBy coreDevs reviews
          ≥ requiredCoreApprovals pr.labels cfg
      · rw [if_pos (Or.inl h3), if_pos h3]
      · by_cases h4 : approvedCountBy teamLeads reviews ≥ 1
        · rw [if_pos (Or.inr h4), if_neg h3, if_pos h4]
        · rw [if_neg (by rintro (h | h); exacts [h3 h, h4 h]), if_neg h3,
            if_neg h4]

/-! ## Claim C7 -/

/-- C7 (counterexample): with `min_reviewers = 0`, adding an
`insubstantial` label raises the required core-dev approval count from 0
to 1, so the claimed "never larger than before" fails as stated. -/
theorem c7_counterexample :
    requiredCoreApprovals [] ⟨0⟩ = 0
  ∧ requiredCoreApprovals [⟨insubstantialLit⟩] ⟨0⟩ = 1
  ∧ ¬ (requiredCoreApprovals [⟨insubstantialLit⟩] ⟨0⟩
        ≤ requiredCoreApprovals [] ⟨0⟩) := by
  refine ⟨by decide, by decide, by decide⟩

/-- C7 (amended): (a) provided the configured `min_reviewers` is at least
1, adding a label whose name contains `insubstantial` never makes the
required core-dev approval count larger than before and the resulting
count is never below 1 (with `min_reviewers = 0` the count rises from 0
to 1, so the lower bound on the configuration is required); (b) adding
one more Approved review by a substrateteamleads member to any input on
which `merge_allowed` allows yields an input on which it still allows. -/
theorem c7_policy_monotonicity :
    (∀ (labels : List Label) (lbl : Label) (cfg : BotConfig),
      containsSub insubstantialLit lbl.name = true →
      1 ≤ cfg.min_reviewers →
      requiredCoreApprovals (labels ++ [lbl]) cfg
          ≤ requiredCoreApprovals labels cfg
        ∧ 1 ≤ requiredCoreApprovals (labels ++ [lbl]) cfg)
  ∧ (∀ (teamLeads coreDevs : List User) (reviews : List Review)
        (processRes : Except BotError Process) (pr : PullRequest)
        (cfg : BotConfig) (requested_by : Str) (lead : User) (r : Review),
      lead ∈ teamLeads → r.user.login = lead.login →
      r.state = some ReviewState.Approved →
      merge_allowed teamLeads coreDevs reviews processRes pr cfg
        requested_by = .ok () →
      merge_allowed teamLeads coreDevs (reviews ++ [r]) processRes pr cfg
        requested_by = .ok ()) := by
  constructor
  · intro labels lbl cfg hlbl hmin
    have hx : ∃ l ∈ labels ++ [lbl], containsSub insubstantialLit l.name = true :=
      ⟨lbl, by simp, hlbl⟩
    have h2 : requiredCoreApprovals (labels ++ [lbl]) cfg = 1 := by
      unfold requiredCoreApprovals
      rw [if_pos hx]
    refine ⟨?_, by rw [h2]⟩
    rw [h2]
    unfold requiredCoreApprovals
    by_cases hy : ∃ l ∈ labels, containsSub insubstantialLit l.name = true
    · rw [if_pos hy]
    · rw [if_neg hy]
      exact hmin
  · intro teamLeads coreDevs reviews processRes pr cfg requested_by lead r
      hmem hlogin happ hok
    have hlead : 1 ≤ approvedCountBy teamLeads (reviews ++ [r]) := by
      unfold approvedCountBy
      have hmemf : r ∈ (reviews ++ [r]).filter
          (fun rr => teamLeads.any (fun u => u.login = rr.user.login)
            && rr.state = some ReviewState.Approved) := by
        apply List.mem_filter.mpr
        refine ⟨by simp, ?_⟩
        rw [Bool.and_eq_true]
        constructor
        · exact List.any_eq_true.mpr ⟨lead, hmem, by simp [hlogin]⟩
        · simp [happ]
      exact List.length_pos_of_mem hmemf
    unfold merge_allowed at hok ⊢
    by_cases h1 : pr.mergeable.getD false = false
    · rw [if_pos h1] at hok
      simp at hok
    · rw [if_neg h1] at hok ⊢
      by_cases h2 : ∃ lead' ∈ teamLeads, lead'.login = requested_by
      · rw [if_pos h2]
      · rw [if_neg h2]
        rw [if_pos (Or.inr hlead)]

/-- Closed instance of `c7_policy_monotonicity` at a concrete label set,
configuration and team-lead approval. -/
theorem c7_witness :
    (requiredCoreApprovals [⟨insubstantialLit⟩] ⟨2⟩
        ≤ requiredCoreApprovals [] ⟨2⟩
      ∧ 1 ≤ requiredCoreApprovals [⟨insubstantialLit⟩] ⟨2⟩)
  ∧ merge_allowed [⟨"lead".toList⟩] []
      [⟨⟨"lead".toList⟩, some ReviewState.Approved, 0⟩]
      (.ok ⟨fun _ => false, true⟩) pr0 ⟨2⟩ "lead".toList = .ok () :=
  ⟨c7_policy_monotonicity.1 [] ⟨insubstantialLit⟩ ⟨2⟩ (by decide) (by decide),
   c7_policy_monotonicity.2 [⟨"lead".toList⟩] [] []
     (.ok ⟨fun _ => false, true⟩) pr0 ⟨2⟩ "lead".toList ⟨"lead".toList⟩
     ⟨⟨"lead".toList⟩, some ReviewState.Approved, 0⟩
     (by decide) rfl rfl rfl⟩

/-! ## Claim C9 -/

/-- C9: `handle_comment` performs the organization-membership check
exactly for the `bot merge`, `bot merge force` and `bot burnin` commands,
and for `bot merge cancel` it deletes the intent keyed by the pull
request's current (trimmed) head sha and posts "Merge cancelled." with no
authorization or policy check — so any commenter, member or not, removes
a pending merge intent by cancelling. -/
theorem c9_cancel_without_authorization
    (teamLeads coreDevs : List User) (reviews : List Review)
    (processRes : Except BotError Process) (cfg : BotConfig)
    (orgOk : Bool) (status : CombinedStatus) (checks : CheckRuns)
    (mergeOk : Bool) (updatedSha : Option Str) (compPr : PullRequest)
    (diffLink : Str) (rebaseOk : Bool) (burninMsg : Str)
    (body requested_by owner repo_name : Str) (pr : PullRequest) (db : DB) :
    ((handle_comment teamLeads coreDevs reviews processRes cfg orgOk status
        checks mergeOk updatedSha compPr diffLink rebaseOk burninMsg body
        requested_by owner repo_name pr db).orgChecked = true
      ↔ (trim (strToLower body) = mergeLit
          ∨ trim (strToLower body) = mergeForceLit
          ∨ startsWithL burninLit (trim (strToLower body)) = true))
  ∧ (trim (strToLower body) = mergeCancelLit →
      handle_comment teamLeads coreDevs reviews processRes cfg orgOk status
        checks mergeOk updatedSha compPr diffLink rebaseOk burninMsg body
        requested_by owner repo_name pr db
      = ⟨false, false, dbDelete (trim pr.head.sha) db, [mergeCancelledLit],
         false, none⟩) := by
  by_cases h1 : trim (strToLower body) = mergeLit
  · have horg : (handle_comment teamLeads coreDevs reviews processRes cfg orgOk
        status checks mergeOk updatedSha compPr diffLink rebaseOk burninMsg
        body requested_by owner repo_name pr db).orgChecked = true := by
      unfold handle_comment
      rw [if_pos h1]
      by_cases ho : orgOk = false
      · rw [if_pos ho]
      · rw [if_neg ho]
        cases merge_allowed teamLeads coreDevs reviews processRes pr cfg
            requested_by with
        | error e => rfl
        | ok u =>
          cases ready_to_merge pr status checks with
          | error e => rfl
          | ok b =>
            cases b
            · rfl
            · cases mergeOk
              · rfl
              · cases update_companion updatedSha compPr repo_name pr db with
                | ok db2 => rfl
                | error e => rfl
    refine ⟨iff_of_true horg (Or.inl h1), fun hc => ?_⟩
    exact absurd (h1.symm.trans hc) (by decide)
  · by_cases h2 : trim (strToLower body) = mergeForceLit
    · have horg : (handle_comment teamLeads coreDevs reviews processRes cfg
          orgOk status checks mergeOk updatedSha compPr diffLink rebaseOk
          burninMsg body requested_by owner repo_name pr db).orgChecked
            = true := by
        unfold handle_comment
        rw [if_neg h1, if_pos h2]
        by_cases ho : orgOk = false
        · rw [if_pos ho]
        · rw [if_neg ho]
          cases merge_allowed teamLeads coreDevs reviews processRes pr cfg
              requested_by with
          | error e => rfl
          | ok u =>
            cases mergeOk
            · rfl
            · cases update_companion updatedSha compPr repo_name pr db with
              | ok db2 => rfl
              | error e => rfl
      refine ⟨iff_of_true horg (Or.inr (Or.inl h2)), fun hc => ?_⟩
      exact absurd (h2.symm.trans hc) (by decide)
    · by_cases h3 : trim (strToLower body) = mergeCancelLit
      · have hres : handle_comment teamLeads coreDevs reviews processRes cfg
            orgOk status checks mergeOk updatedSha compPr diffLink rebaseOk
            burninMsg body requested_by owner repo_name pr db
            = ⟨false, false, dbDelete (trim pr.head.sha) db,
               [mergeCancelledLit], false, none⟩ := by
          unfold handle_comment
          rw [if_neg h1, if_neg h2, if_pos h3]
        refine ⟨?_, fun _ => hres⟩
        rw [hres]
        refine iff_of_false (by simp) ?_
        rintro (h | h | h)
        · exact h1 h
        · exact h2 h
        · rw [h3] at h
          exact absurd h (by decide)
      · by_cases h4 : repo_name = polkadotLit
            ∧ trim (strToLower body) = compareReleaseLit
        · have hres : handle_comment teamLeads coreDevs reviews processRes cfg
              orgOk status checks mergeOk updatedSha compPr diffLink rebaseOk
              burninMsg body requested_by owner repo_name pr db
              = ⟨false, false, db, [diffLink], false, none⟩ := by
            unfold handle_comment
            rw [if_neg h1, if_neg h2, if_neg h3, if_pos h4]
          refine ⟨?_, fun hc => absurd (h4.2.symm.trans hc) (by decide)⟩
          rw [hres]
          refine iff_of_false (by simp) ?_
          rintro (h | h | h)
          · exact h1 h
          · exact h2 h
          · rw [h4.2] at h
            exact absurd h (by decide)
        · by_cases h5 : trim (strToLower body) = rebaseLit
          · have hres : handle_comment teamLeads coreDevs reviews processRes
                cfg orgOk status checks mergeOk updatedSha compPr diffLink
                rebaseOk burninMsg body requested_by owner repo_name pr db
                = ⟨false, false, db, [rebasingLit], false,
                   if rebaseOk then none else some .RebaseFailure⟩ := by
              unfold handle_comment
              rw [if_neg h1, if_neg h2, if_neg h3, if_neg h4, if_pos h5]
            refine ⟨?_, fun hc => absurd (h5.symm.trans hc) (by decide)⟩
            rw [hres]
            refine iff_of_false (by simp) ?_
            rintro (h | h | h)
            · exact h1 h
            · exact h2 h
            · rw [h5] at h
              exact absurd h (by decide)
          · by_cases h6 : startsWithL burninLit (trim (strToLower body)) = true
            · have horg : (handle_comment teamLeads coreDevs reviews processRes
                  cfg orgOk status checks mergeOk updatedSha compPr diffLink
                  rebaseOk burninMsg body requested_by owner repo_name pr
                  db).orgChecked = true := by
                unfold handle_comment
                rw [if_neg h1, if_neg h2, if_neg h3, if_neg h4, if_neg h5,
                  if_pos h6]
                by_cases ho : orgOk = false
                · rw [if_pos ho]
                · rw [if_neg ho]
              refine ⟨iff_of_true horg (Or.inr (Or.inr h6)), fun hc => ?_⟩
              rw [hc] at h6
              exact absurd h6 (by decide)
            · have hres : handle_comment teamLeads coreDevs reviews processRes
                  cfg orgOk status checks mergeOk updatedSha compPr diffLink
                  rebaseOk burninMsg body requested_by owner repo_name pr db
                  = ⟨false, false, db, [], false, none⟩ := by
                unfold handle_comment
                rw [if_neg h1, if_neg h2, if_neg h3, if_neg h4, if_neg h5,
                  if_neg h6]
              refine ⟨?_, fun hc => absurd hc h3⟩
              rw [hres]
              refine iff_of_false (by simp) ?_
              rintro (h | h | h)
              · exact h1 h
              · exact h2 h
              · exact h6 h

/-- Closed instance of `c9_cancel_without_authorization`: a cancel
comment from an arbitrary commenter removes the stored intent and posts
the cancellation comment, with no membership check. -/
theorem c9_witness :
    handle_comment [] [] [] (.error .ProcessFileFailure) ⟨2⟩ false ⟨.Pending⟩
      ⟨[]⟩ false none pr0 [] true [] "bot merge cancel".toList
      "stranger".toList "org".toList "polkadot".toList pr0 db0
    = ⟨false, false, dbDelete (trim pr0.head.sha) db0, [mergeCancelledLit],
       false, none⟩ :=
  (c9_cancel_without_authorization [] [] [] (.error .ProcessFileFailure) ⟨2⟩
    false ⟨.Pending⟩ ⟨[]⟩ false none pr0 [] true []
    "bot merge cancel".toList "stranger".toList "org".toList
    "polkadot".toList pr0 db0).2 (by decide)

/-! ## Claim C1 -/

/-- If `update_companion` returns a store, that store agrees with its
input on every key other than the trimmed re-queued sha. -/
theorem update_companion_db (updatedSha : Option Str) (compPr : PullRequest)
    (repo_name : Str) (pr : PullRequest) (db db2 : DB) (k : Str)
    (h : update_companion updatedSha compPr repo_name pr db = .ok db2)
    (hk : ∀ s, updatedSha = some s → trim s ≠ k) :
    dbGet db2 k = dbGet db k := by
  unfold update_companion at h
  by_cases hrn : repo_name = substrateLit
  · rw [if_pos hrn] at h
    cases hb : pr.body with
    | none =>
      simp only [hb] at h
      injection h with h
      rw [← h]
    | some body =>
      simp only [hb] at h
      cases hcp : companion_parse body with
      | none =>
        simp only [hcp] at h
        injection h with h
        rw [← h]
      | some quad =>
        obtain ⟨u, o, rp, n⟩ := quad
        simp only [hcp] at h
        cases hu : updatedSha with
        | none => simp only [hu] at h; cases h
        | some sha =>
          simp only [hu] at h
          injection h with h
          rw [← h]
          unfold wait_to_merge create_merge_request
          exact dbGet_put_ne _ _ _ _ (fun he => hk sha hu he.symm)
  · rw [if_neg hrn] at h
    injection h with h
    rw [← h]

/-- C1 (counterexample): with an intent already stored for head `abc`,
a `bot merge` command whose checks are green merges successfully, yet the
command path deletes nothing, so the intent keyed by the merged head
commit is still in the store afterwards. -/
theorem c1_counterexample :
    (handle_comment [⟨"alice".toList⟩] [] [] (.error .ProcessFileFailure) ⟨2⟩
      true ⟨.Success⟩ ⟨[]⟩ true none pr0 [] true [] "bot merge".toList
      "alice".toList "org".toList "polkadot".toList pr0 db0).mergeAttempted
        = true
  ∧ (handle_comment [⟨"alice".toList⟩] [] [] (.error .ProcessFileFailure) ⟨2⟩
      true ⟨.Success⟩ ⟨[]⟩ true none pr0 [] true [] "bot merge".toList
      "alice".toList "org".toList "polkadot".toList pr0 db0).err = none
  ∧ ¬ (dbGet (handle_comment [⟨"alice".toList⟩] [] []
      (.error .ProcessFileFailure) ⟨2⟩ true ⟨.Success⟩ ⟨[]⟩ true none pr0 []
      true [] "bot merge".toList "alice".toList "org".toList
      "polkadot".toList pr0 db0).db (trim pr0.head.sha) = none) := by
  refine ⟨by decide, by decide, by decide⟩

/-- C1 (amended): after a successful merge call on the webhook resume
path, no intent keyed by the merged head commit remains (provided the
companion re-queue stores under a different key); on the command paths
(`bot merge` with green checks and `bot merge force`) the merge itself
deletes nothing, so an intent stored for the head before the command
survives a successful merge there. -/
theorem c1_intent_cleanup :
    (∀ (fetchPr : Str → Str → Int → PullRequest) (checks : CheckRuns)
        (updatedSha : Option Str) (compPr : PullRequest) (C : Str) (db : DB)
        (m : MergeRequest),
      dbGet db (trim C) = some m →
      C = (fetchPr m.owner m.repo_name m.number).head.sha →
      (∀ r ∈ checks.check_runs, r.conclusion = some successLit) →
      (∀ s, updatedSha = some s → trim s ≠ trim C) →
      dbGet (status_webhook_flow fetchPr checks ⟨.Success⟩ true updatedSha
        compPr C db).db (trim C) = none)
  ∧ (∀ (teamLeads coreDevs : List User) (reviews : List Review)
        (processRes : Except BotError Process) (cfg : BotConfig)
        (status : CombinedStatus) (checks : CheckRuns)
        (updatedSha : Option Str) (compPr : PullRequest) (diffLink : Str)
        (rebaseOk : Bool) (burninMsg : Str)
        (body requested_by owner repo_name : Str) (pr : PullRequest)
        (db : DB) (m : MergeRequest),
      (trim (strToLower body) = mergeLit
        ∨ trim (strToLower body) = mergeForceLit) →
      dbGet db (trim pr.head.sha) = some m →
      (∀ s, updatedSha = some s → trim s ≠ trim pr.head.sha) →
      (handle_comment teamLeads coreDevs reviews processRes cfg true status
        checks true updatedSha compPr diffLink rebaseOk burninMsg body
        requested_by owner repo_name pr db).mergeAttempted = true →
      dbGet (handle_comment teamLeads coreDevs reviews processRes cfg true
        status checks true updatedSha compPr diffLink rebaseOk burninMsg body
        requested_by owner repo_name pr db).db (trim pr.head.sha) = some m) := by
  constructor
  · intro fetchPr checks updatedSha compPr C db m hget hhead hS hk
    unfold status_webhook_flow
    rw [checks_and_status_found fetchPr checks ⟨.Success⟩ true updatedSha
      compPr C db m hget hhead]
    rw [if_pos hS]
    cases huc : update_companion updatedSha compPr m.repo_name
        (fetchPr m.owner m.repo_name m.number)
        (dbDelete (trim (fetchPr m.owner m.repo_name m.number).head.sha) db) with
    | ok db2 =>
      show dbGet db2 (trim C) = none
      rw [update_companion_db updatedSha compPr m.repo_name
        (fetchPr m.owner m.repo_name m.number)
        (dbDelete (trim (fetchPr m.owner m.repo_name m.number).head.sha) db)
        db2 (trim C) huc hk]
      rw [← hhead]
      exact dbGet_delete_self (trim C) db
    | error e =>
      have he := update_companion_error _ _ _ _ _ _ huc
      show dbGet (handle_error_db e
        (dbDelete (trim (fetchPr m.owner m.repo_name m.number).head.sha) db))
        (trim C) = none
      rw [he]
      show dbGet
        (dbDelete (trim (fetchPr m.owner m.repo_name m.number).head.sha) db)
        (trim C) = none
      rw [← hhead]
      exact dbGet_delete_self (trim C) db
  · intro teamLeads coreDevs reviews processRes cfg status checks updatedSha
      compPr diffLink rebaseOk burninMsg body requested_by owner repo_name pr
      db m hbody hget hk hma
    rcases hbody with hbody | hbody
    · unfold handle_comment at hma ⊢
      rw [if_pos hbody] at hma ⊢
      rw [if_neg (show ¬ (true = false) by decide)] at hma ⊢
      cases hmal : merge_allowed teamLeads coreDevs reviews processRes pr cfg
          requested_by with
      | error e =>
        rw [hmal] at hma
        simp at hma
      | ok u =>
        rw [hmal] at hma
        cases hrtm : ready_to_merge pr status checks with
        | error e =>
          rw [hrtm] at hma
          simp at hma
        | ok b =>
          rw [hrtm] at hma
          cases b
          · simp at hma
          · cases huc : update_companion updatedSha compPr repo_name pr db with
            | ok db2 =>
              show dbGet db2 (trim pr.head.sha) = some m
              rw [update_companion_db updatedSha compPr repo_name pr db db2
                (trim pr.head.sha) huc hk]
              exact hget
            | error e =>
              show dbGet db (trim pr.head.sha) = some m
              exact hget
    · unfold handle_comment at hma ⊢
      rw [if_neg (show ¬ (trim (strToLower body) = mergeLit) from
        fun hc => by rw [hbody] at hc; exact absurd hc (by decide))] at hma ⊢
      rw [if_pos hbody] at hma ⊢
      rw [if_neg (show ¬ (true = false) by decide)] at hma ⊢
      cases hmal : merge_allowed teamLeads coreDevs reviews processRes pr cfg
          requested_by with
      | error e =>
        rw [hmal] at hma
        simp at hma
      | ok u =>
        rw [hmal] at hma
        cases huc : update_companion updatedSha compPr repo_name pr db with
        | ok db2 =>
          show dbGet db2 (trim pr.head.sha) = some m
          rw [update_companion_db updatedSha compPr repo_name pr db db2
            (trim pr.head.sha) huc hk]
          exact hget
        | error e =>
          show dbGet db (trim pr.head.sha) = some m
          exact hget

/-- Closed instance of `c1_intent_cleanup`: the resume path leaves no
intent for the merged head, and the command path keeps a pre-existing
one. -/
theorem c1_witness :
    dbGet (status_webhook_flow (fun _ _ _ => pr0) ⟨[]⟩ ⟨.Success⟩ true none
      pr0 "abc".toList db0).db (trim "abc".toList) = none
  ∧ dbGet (handle_comment [⟨"alice".toList⟩] [] []
      (.error .ProcessFileFailure) ⟨2⟩ true ⟨.Success⟩ ⟨[]⟩ true none pr0 []
      true [] "bot merge".toList "alice".toList "org".toList
      "polkadot".toList pr0 db0).db (trim pr0.head.sha) = some m0 :=
  ⟨c1_intent_cleanup.1 (fun _ _ _ => pr0) ⟨[]⟩ none pr0 "abc".toList db0 m0
     (by decide) (by decide) (by decide) (fun s hs => by cases hs),
   c1_intent_cleanup.2 [⟨"alice".toList⟩] [] [] (.error .ProcessFileFailure)
     ⟨2⟩ ⟨.Success⟩ ⟨[]⟩ none pr0 [] true [] "bot merge".toList
     "alice".toList "org".toList "polkadot".toList pr0 db0 m0
     (Or.inl (by decide)) (by decide) (fun s hs => by cases hs) (by decide)⟩

/-! ## Claim C6: decimal-digit lemmas -/

theorem digitChar_isDigit (m : Nat) (h : m < 10) :
    (digitChar m).isDigit = true := by
  interval_cases m <;> decide

theorem digitChar_toNat (m : Nat) (h : m < 10) :
    (digitChar m).toNat = 48 + m := by
  interval_cases m <;> decide

theorem natOfDigits_snoc (l : Str) (c : Char) :
    natOfDigits (l ++ [c]) = 10 * natOfDigits l + (c.toNat - 48) := by
  unfold natOfDigits
  rw [List.foldl_append]
  rfl

theorem natDigitsFuel_spec (f : Nat) :
    ∀ n, n < f → natDigitsFuel f n ≠ []
      ∧ (∀ c ∈ natDigitsFuel f n, c.isDigit = true)
      ∧ natOfDigits (natDigitsFuel f n) = n := by
  induction f with
  | zero => intro n hn; omega
  | succ f ih =>
    intro n hn
    by_cases h10 : n < 10
    · have he : natDigitsFuel (f + 1) n = [digitChar n] := by
        show (if n < 10 then [digitChar n]
          else natDigitsFuel f (n / 10) ++ [digitChar (n % 10)]) = [digitChar n]
        rw [if_pos h10]
      refine ⟨by simp [he], ?_, ?_⟩
      · intro c hc
        rw [he] at hc
        simp at hc
        rw [hc]
        exact digitChar_isDigit n h10
      · rw [he]
        show natOfDigits ([] ++ [digitChar n]) = n
        rw [natOfDigits_snoc, digitChar_toNat n h10]
        simp [natOfDigits]
    · have he : natDigitsFuel (f + 1) n
          = natDigitsFuel f (n / 10) ++ [digitChar (n % 10)] := by
        show (if n < 10 then [digitChar n]
            else natDigitsFuel f (n / 10) ++ [digitChar (n % 10)])
          = natDigitsFuel f (n / 10) ++ [digitChar (n % 10)]
        rw [if_neg h10]
      have hdiv : n / 10 < f := by
        have h1 : n / 10 < n := Nat.div_lt_self (by omega) (by omega)
        omega
      obtain ⟨ih1, ih2, ih3⟩ := ih (n / 10) hdiv
      refine ⟨by simp [he], ?_, ?_⟩
      · intro c hc
        rw [he] at hc
        rcases List.mem_append.mp hc with hc | hc
        · exact ih2 c hc
        · simp at hc
          rw [hc]
          exact digitChar_isDigit (n % 10) (Nat.mod_lt n (by omega))
      · rw [he, natOfDigits_snoc, ih3,
          digitChar_toNat (n % 10) (Nat.mod_lt n (by omega))]
        omega

theorem natDigits_spec (n : Nat) :
    natDigits n ≠ [] ∧ (∀ c ∈ natDigits n, c.isDigit = true)
      ∧ natOfDigits (natDigits n) = n :=
  natDigitsFuel_spec (n + 1) n (Nat.lt_succ_self n)

/-! ## Claim C6: character-class and splitting lemmas -/

theorem schemeChar_spec (c : Char) :
    schemeChar c = true ↔ (c ≠ ':' ∧ c ≠ '/' ∧ c ≠ ' ' ∧ c ≠ '\n') := by
  unfold schemeChar
  simp [not_or]
  tauto

theorem segChar_spec (c : Char) :
    segChar c = true ↔ (c ≠ '/' ∧ c ≠ ' ' ∧ c ≠ '?' ∧ c ≠ '#' ∧ c ≠ ':'
      ∧ c ≠ '\n') := by
  unfold segChar
  simp [not_or]
  tauto

/-- Splitting `takeWhile`/`dropWhile` at the first failing character. -/
theorem takeWhile_middle (p : Char → Bool) (a b : Str)
    (ha : ∀ c ∈ a, p c = true)
    (hb : b = [] ∨ ∃ c t, b = c :: t ∧ p c = false) :
    (a ++ b).takeWhile p = a ∧ (a ++ b).dropWhile p = b := by
  induction a with
  | nil =>
    rcases hb with hb | ⟨c, t, hb, hc⟩
    · simp [hb]
    · simp [hb, List.takeWhile_cons, List.dropWhile_cons, hc]
  | cons x xs ih =>
    have hx : p x = true := ha x (by simp)
    have ihr := ih (fun c hc => ha c (by simp [hc]))
    simp only [List.cons_append, List.takeWhile_cons, List.dropWhile_cons, hx,
      if_true]
    exact ⟨by rw [ihr.1], ihr.2⟩

/-- `stripLit` removes an exact leading literal. -/
theorem stripLit_pref (l r : Str) : stripLit l (l ++ r) = some r := by
  induction l with
  | nil => rfl
  | cons c cs ih => simp [stripLit, ih]

/-- `rustSplit` on a separator-free string gives one segment. -/
theorem rustSplit_no_sep (sep : Char) (a : Str) (h : sep ∉ a) :
    rustSplit sep a = [a] := by
  induction a with
  | nil => rfl
  | cons c cs ih =>
    have hc : ¬ c = sep := fun hc => h (by simp [hc])
    have hcs : sep ∉ cs := fun hm => h (by simp [hm])
    unfold rustSplit
    rw [if_neg hc, ih hcs]

/-- `rustSplit` peels one separator-free segment before a separator. -/
theorem rustSplit_append_sep (sep : Char) (a rest : Str) (h : sep ∉ a) :
    rustSplit sep (a ++ sep :: rest) = a :: rustSplit sep rest := by
  induction a with
  | nil => simp [rustSplit]
  | cons c cs ih =>
    have hc : ¬ c = sep := fun hc => h (by simp [hc])
    have hcs : sep ∉ cs := fun hm => h (by simp [hm])
    show rustSplit sep (c :: (cs ++ sep :: rest)) = (c :: cs) :: rustSplit sep rest
    conv_lhs => unfold rustSplit
    rw [if_neg hc, ih hcs]

/-- `rustSplit '\n'` recovers the lines joined by `unlines`, provided no
line contains a newline. -/
theorem rustSplit_unlines (l : Str) (ls : List Str)
    (h : ∀ x ∈ l :: ls, '\n' ∉ x) :
    rustSplit '\n' (unlines (l :: ls)) = l :: ls := by
  induction ls generalizing l with
  | nil => exact rustSplit_no_sep '\n' l (h l (by simp))
  | cons l2 ls2 ih =>
    show rustSplit '\n' (l ++ '\n' :: unlines (l2 :: ls2)) = l :: l2 :: ls2
    rw [rustSplit_append_sep '\n' l (unlines (l2 :: ls2)) (h l (by simp))]
    rw [ih l2 (fun x hx => h x (by simp at hx ⊢; tauto))]

/-! ## Claim C6: marker-scanning lemmas -/

theorem strToLower_length (m : Str) : (strToLower m).length = m.length :=
  List.length_map m Char.toLower

theorem startsWithCI_of_lower (p : Str) :
    ∀ m r, strToLower m = strToLower p → startsWithCI p (m ++ r) = true := by
  induction p with
  | nil => intro m r _; cases m <;> rfl
  | cons q qs ih =>
    intro m r hm
    cases m with
    | nil => simp [strToLower] at hm
    | cons c cs =>
      simp only [strToLower, List.map_cons, List.cons.injEq] at hm
      show startsWithCI (q :: qs) (c :: (cs ++ r)) = true
      unfold startsWithCI
      rw [Bool.and_eq_true]
      constructor
      · unfold charEqCI
        simp [hm.1]
      · exact ih cs r hm.2

/-- A marker that lowercases to `companion:` launches the after-marker
parser at its own position. -/
theorem scanWith_marker (parse : Str → Option (Str × Str × Str × Nat))
    (m rest : Str) (res : Str × Str × Str × Nat)
    (hm : strToLower m = markerLit) (hp : parse rest = some res) :
    scanWith parse (m ++ rest) = some res := by
  have hlen : m.length = markerLit.length := by
    rw [← strToLower_length m, hm]
  have hsw : startsWithCI markerLit (m ++ rest) = true := by
    apply startsWithCI_of_lower
    rw [hm]
    have : strToLower markerLit = markerLit := by decide
    rw [this]
  cases m with
  | nil => simp [markerLit] at hlen
  | cons c cs =>
    rw [List.cons_append] at hsw
    have hdrop : (c :: (cs ++ rest)).drop markerLit.length = rest := by
      rw [← List.cons_append, ← hlen]
      exact List.drop_left (c :: cs) rest
    show scanWith parse (c :: (cs ++ rest)) = some res
    conv_lhs => unfold scanWith
    rw [if_pos hsw, hdrop, hp]

/-- Leading whitespace (spaces and tabs) is skipped by the scanner. -/
theorem scanWith_pad (parse : Str → Option (Str × Str × Str × Nat))
    (pad : Str) (hpad : ∀ c ∈ pad, c = ' ' ∨ c = '\t') (s : Str) :
    scanWith parse (pad ++ s) = scanWith parse s := by
  induction pad with
  | nil => rfl
  | cons c cs ih =>
    have hc : c = ' ' ∨ c = '\t' := hpad c (by simp)
    have hnc : startsWithCI markerLit (c :: (cs ++ s)) = false := by
      have hm : markerLit = 'c' :: "ompanion:".toList := by decide
      rw [hm]
      unfold startsWithCI
      rw [Bool.and_eq_false_iff]
      left
      unfold charEqCI
      rcases hc with hc | hc <;> rw [hc] <;> decide
    have hnc2 : ¬ (startsWithCI markerLit (c :: (cs ++ s)) = true) := by
      rw [hnc]
      decide
    show scanWith parse (c :: (cs ++ s)) = scanWith parse s
    conv_lhs => unfold scanWith
    rw [if_neg hnc2]
    exact ih (fun x hx => hpad x (by simp [hx]))

/-- `findSome?` over lines: earlier non-matching lines are skipped and
the first matching line decides. -/
theorem findSome_lines {α : Type} (f : Str → Option α) (pre : List Str)
    (hpre : ∀ x ∈ pre, f x = none) (line : Str) (post : List Str) (r : α)
    (hline : f line = some r) :
    (pre ++ line :: post).findSome? f = some r := by
  induction pre with
  | nil => simp [List.findSome?, hline]
  | cons x xs ih =>
    have hx : f x = none := hpre x (by simp)
    show ((x :: (xs ++ line :: post)).findSome? f) = some r
    rw [List.findSome?]
    rw [hx]
    exact ih (fun y hy => hpre y (by simp [hy]))

theorem findSome_none {α : Type} (f : Str → Option α) (ls : List Str)
    (h : ∀ x ∈ ls, f x = none) : ls.findSome? f = none := by
  induction ls with
  | nil => rfl
  | cons x xs ih =>
    rw [List.findSome?, h x (by simp)]
    exact ih (fun y hy => h y (by simp [hy]))

/-! ## Claim C6: positive runs of the two after-marker parsers -/

theorem dropWhile_cons_neg (p : Char → Bool) (c : Char) (l : Str)
    (h : p c = false) : (c :: l).dropWhile p = c :: l := by
  simp [List.dropWhile_cons, h]

/-- Segment split at a delimiter character. -/
theorem takeWhile_seg (p : Char → Bool) (a : Str) (c : Char) (b : Str)
    (ha : ∀ x ∈ a, p x = true) (hc : p c = false) :
    (a ++ c :: b).takeWhile p = a ∧ (a ++ c :: b).dropWhile p = c :: b :=
  takeWhile_middle p a (c :: b) ha (Or.inr ⟨c, b, rfl, hc⟩)

/-- A nonempty segment of scheme characters is untouched by the leading
space skip. -/
theorem dropWhile_space_append (a X : Str) (ha : a ≠ [])
    (h2 : ∀ c ∈ a, (c = ' ') = False) :
    (a ++ X).dropWhile (fun c => c = ' ') = a ++ X := by
  cases a with
  | nil => exact absurd rfl ha
  | cons c cs =>
    rw [List.cons_append]
    apply dropWhile_cons_neg
    simp [h2 c (by simp)]

theorem stripLit_scheme (X : Str) :
    stripLit "://".toList (':' :: ('/' :: ('/' :: X))) = some X := rfl

theorem stripLit_slash (X : Str) :
    stripLit "/".toList ('/' :: X) = some X := rfl

theorem stripLit_hash (X : Str) :
    stripLit "#".toList ('#' :: X) = some X := rfl

theorem stripLit_pull (X : Str) :
    stripLit "/pull/".toList
      ('/' :: ('p' :: ('u' :: ('l' :: ('l' :: ('/' :: X)))))) = some X := rfl

/-- A well-formed long companion reference after the marker parses to the
canonical URL with the query/tail stripped. -/
theorem parseLongAfter_pos (scheme host owner repo : Str) (n : Nat)
    (tail : Str)
    (hs1 : scheme ≠ []) (hs2 : ∀ c ∈ scheme, schemeChar c = true)
    (hh1 : host ≠ []) (hh2 : ∀ c ∈ host, segChar c = true)
    (ho1 : owner ≠ []) (ho2 : ∀ c ∈ owner, segChar c = true)
    (hr1 : repo ≠ []) (hr2 : ∀ c ∈ repo, segChar c = true)
    (ht : tail = [] ∨ ∃ c t, tail = c :: t ∧ c.isDigit = false)
    (hn : n ≤ i64Max) :
    parseLongAfter (' ' :: (scheme ++ (':' :: ('/' :: ('/' :: (host ++ ('/' ::
        (owner ++ ('/' :: (repo ++ ('/' :: ('p' :: ('u' :: ('l' :: ('l' ::
        ('/' :: (natDigits n ++ tail)))))))))))))))))
      = some (canonicalUrl host owner repo (natDigits n), owner, repo, n) := by
  obtain ⟨hdne, hdall, hdval⟩ := natDigits_spec n
  have hsegSlash : segChar '/' = false := by decide
  have hschemeColon : schemeChar ':' = false := by decide
  set DT : Str := natDigits n ++ tail with hDT
  set S4 : Str := '/' :: ('p' :: ('u' :: ('l' :: ('l' :: ('/' :: DT)))))
    with hS4
  set S3 : Str := repo ++ S4 with hS3
  set S2 : Str := owner ++ ('/' :: S3) with hS2
  set S1 : Str := host ++ ('/' :: S2) with hS1
  set S0 : Str := scheme ++ (':' :: ('/' :: ('/' :: S1))) with hS0
  have hschemeSpace : ∀ c ∈ scheme, (c = ' ') = False := by
    intro c hc
    have := (schemeChar_spec c).mp (hs2 c hc)
    simp [this.2.2.1]
  have h0 : (' ' :: S0).dropWhile (fun c => c = ' ') = S0 := by
    rw [List.dropWhile_cons, if_pos (show decide ((' ' : Char) = ' ') = true
      by decide), hS0]
    exact dropWhile_space_append scheme _ hs1 hschemeSpace
  have h1t : S0.takeWhile schemeChar = scheme := by
    rw [hS0]
    exact (takeWhile_seg schemeChar scheme ':' _ hs2 hschemeColon).1
  have h1d : S0.dropWhile schemeChar = ':' :: ('/' :: ('/' :: S1)) := by
    rw [hS0]
    exact (takeWhile_seg schemeChar scheme ':' _ hs2 hschemeColon).2
  have h2t : S1.takeWhile segChar = host := by
    rw [hS1]
    exact (takeWhile_seg segChar host '/' _ hh2 hsegSlash).1
  have h2d : S1.dropWhile segChar = '/' :: S2 := by
    rw [hS1]
    exact (takeWhile_seg segChar host '/' _ hh2 hsegSlash).2
  have h3t : S2.takeWhile segChar = owner := by
    rw [hS2]
    exact (takeWhile_seg segChar owner '/' _ ho2 hsegSlash).1
  have h3d : S2.dropWhile segChar = '/' :: S3 := by
    rw [hS2]
    exact (takeWhile_seg segChar owner '/' _ ho2 hsegSlash).2
  have h4t : S3.takeWhile segChar = repo := by
    rw [hS3, hS4]
    exact (takeWhile_seg segChar repo '/' _ hr2 hsegSlash).1
  have h4d : S3.dropWhile segChar
      = '/' :: ('p' :: ('u' :: ('l' :: ('l' :: ('/' :: DT))))) := by
    rw [hS3, hS4]
    exact (takeWhile_seg segChar repo '/' _ hr2 hsegSlash).2
  have h5t : DT.takeWhile Char.isDigit = natDigits n := by
    rw [hDT]
    exact (takeWhile_middle Char.isDigit (natDigits n) tail hdall ht).1
  simp only [parseLongAfter]
  rw [h0, h1t]
  rw [if_neg hs1]
  rw [h1d, stripLit_scheme]
  simp only [Option.some_bind]
  rw [h2t, if_neg hh1, h2d, stripLit_slash]
  simp only [Option.some_bind]
  rw [h3t, if_neg ho1, h3d, stripLit_slash]
  simp only [Option.some_bind]
  rw [h4t, if_neg hr1, h4d, stripLit_pull]
  simp only [Option.some_bind]
  rw [h5t, if_neg hdne, hdval, if_pos hn]

/-- A well-formed short companion reference after the marker parses to
the synthesized canonical URL. -/
theorem parseShortAfter_pos (owner repo : Str) (n : Nat) (tail : Str)
    (ho1 : owner ≠ []) (ho2 : ∀ c ∈ owner, segChar c = true)
    (hr1 : repo ≠ []) (hr2 : ∀ c ∈ repo, segChar c = true)
    (hof : ∀ c ∈ owner, (c = ' ') = False)
    (ht : tail = [] ∨ ∃ c t, tail = c :: t ∧ c.isDigit = false)
    (hn : n ≤ i64Max) :
    parseShortAfter (' ' :: (owner ++ ('/' :: (repo ++ ('#' ::
        (natDigits n ++ tail))))))
      = some (canonicalUrl "github.com".toList owner repo (natDigits n),
          owner, repo, n) := by
  obtain ⟨hdne, hdall, hdval⟩ := natDigits_spec n
  have hsegSlash : segChar '/' = false := by decide
  have hsegHash : segChar '#' = false := by decide
  set DT : Str := natDigits n ++ tail with hDT
  set S2 : Str := repo ++ ('#' :: DT) with hS2
  set S1 : Str := owner ++ ('/' :: S2) with hS1
  have h0 : (' ' :: S1).dropWhile (fun c => c = ' ') = S1 := by
    rw [List.dropWhile_cons, if_pos (show decide ((' ' : Char) = ' ') = true
      by decide), hS1]
    exact dropWhile_space_append owner _ ho1 hof
  have h1t : S1.takeWhile segChar = owner := by
    rw [hS1]
    exact (takeWhile_seg segChar owner '/' _ ho2 hsegSlash).1
  have h1d : S1.dropWhile segChar = '/' :: S2 := by
    rw [hS1]
    exact (takeWhile_seg segChar owner '/' _ ho2 hsegSlash).2
  have h2t : S2.takeWhile segChar = repo := by
    rw [hS2]
    exact (takeWhile_seg segChar repo '#' _ hr2 hsegHash).1
  have h2d : S2.dropWhile segChar = '#' :: DT := by
    rw [hS2]
    exact (takeWhile_seg segChar repo '#' _ hr2 hsegHash).2
  have h3t : DT.takeWhile Char.isDigit = natDigits n := by
    rw [hDT]
    exact (takeWhile_middle Char.isDigit (natDigits n) tail hdall ht).1
  simp only [parseShortAfter]
  rw [h0, h1t, if_neg ho1, h1d, stripLit_slash]
  simp only [Option.some_bind]
  rw [h2t, if_neg hr1, h2d, stripLit_hash]
  simp only [Option.some_bind]
  rw [h3t, if_neg hdne, hdval, if_pos hn]

/-! ## Claim C6: whole-line and whole-body composition -/

/-- A long-form companion line: optional indentation, a case-insensitive
marker, one space, then `scheme://host/owner/repo/pull/<n><tail>` (the
character chain spells `://` and `/pull/`). -/
def longLine (pad m scheme host owner repo : Str) (n : Nat)
    (tail : Str) : Str :=
  pad ++ (m ++ (' ' :: (scheme ++ (':' :: ('/' :: ('/' :: (host ++ ('/' ::
    (owner ++ ('/' :: (repo ++ ('/' :: ('p' :: ('u' :: ('l' :: ('l' ::
    ('/' :: (natDigits n ++ tail))))))))))))))))))

/-- A short-form companion line: optional indentation, a case-insensitive
marker, one space, then `owner/repo#<n><tail>`. -/
def shortLine (pad m owner repo : Str) (n : Nat) (tail : Str) : Str :=
  pad ++ (m ++ (' ' :: (owner ++ ('/' :: (repo ++ ('#' ::
    (natDigits n ++ tail)))))))

theorem scanLong_longLine (pad m scheme host owner repo : Str) (n : Nat)
    (tail : Str)
    (hpad : ∀ c ∈ pad, c = ' ' ∨ c = '\t') (hm : strToLower m = markerLit)
    (hs1 : scheme ≠ []) (hs2 : ∀ c ∈ scheme, schemeChar c = true)
    (hh1 : host ≠ []) (hh2 : ∀ c ∈ host, segChar c = true)
    (ho1 : owner ≠ []) (ho2 : ∀ c ∈ owner, segChar c = true)
    (hr1 : repo ≠ []) (hr2 : ∀ c ∈ repo, segChar c = true)
    (ht : tail = [] ∨ ∃ c t, tail = c :: t ∧ c.isDigit = false)
    (hn : n ≤ i64Max) :
    scanLong (longLine pad m scheme host owner repo n tail)
      = some (canonicalUrl host owner repo (natDigits n), owner, repo, n) := by
  unfold longLine scanLong
  rw [scanWith_pad parseLongAfter pad hpad]
  exact scanWith_marker parseLongAfter m _ _ hm
    (parseLongAfter_pos scheme host owner repo n tail hs1 hs2 hh1 hh2 ho1 ho2
      hr1 hr2 ht hn)

theorem scanShort_shortLine (pad m owner repo : Str) (n : Nat) (tail : Str)
    (hpad : ∀ c ∈ pad, c = ' ' ∨ c = '\t') (hm : strToLower m = markerLit)
    (ho1 : owner ≠ []) (ho2 : ∀ c ∈ owner, segChar c = true)
    (hr1 : repo ≠ []) (hr2 : ∀ c ∈ repo, segChar c = true)
    (ht : tail = [] ∨ ∃ c t, tail = c :: t ∧ c.isDigit = false)
    (hn : n ≤ i64Max) :
    scanShort (shortLine pad m owner repo n tail)
      = some (canonicalUrl "github.com".toList owner repo (natDigits n),
          owner, repo, n) := by
  have hof : ∀ c ∈ owner, (c = ' ') = False := by
    intro c hc
    have := (segChar_spec c).mp (ho2 c hc)
    simp [this.2.1]
  unfold shortLine scanShort
  rw [scanWith_pad parseShortAfter pad hpad]
  exact scanWith_marker parseShortAfter m _ _ hm
    (parseShortAfter_pos owner repo n tail ho1 ho2 hr1 hr2 hof ht hn)

theorem longLine_no_newline (pad m scheme host owner repo : Str) (n : Nat)
    (tail : Str)
    (hpad : ∀ c ∈ pad, c = ' ' ∨ c = '\t') (hm : strToLower m = markerLit)
    (hs2 : ∀ c ∈ scheme, schemeChar c = true)
    (hh2 : ∀ c ∈ host, segChar c = true)
    (ho2 : ∀ c ∈ owner, segChar c = true)
    (hr2 : ∀ c ∈ repo, segChar c = true)
    (htn : '\n' ∉ tail) :
    '\n' ∉ longLine pad m scheme host owner repo n tail := by
  have hchars : ∀ c : Char, c ∈ longLine pad m scheme host owner repo n tail →
      (c ∈ pad ∨ c ∈ m ∨ c = ' ' ∨ c ∈ scheme ∨ c = ':' ∨ c = '/' ∨ c ∈ host
        ∨ c ∈ owner ∨ c ∈ repo ∨ c = 'p' ∨ c = 'u' ∨ c = 'l'
        ∨ c ∈ natDigits n ∨ c ∈ tail) := by
    intro c hc
    unfold longLine at hc
    simp only [List.mem_append, List.mem_cons] at hc
    tauto
  intro hmem
  rcases hchars '\n' hmem with h | h | h | h | h | h | h | h | h | h | h | h
    | h | h
  · rcases hpad '\n' h with h | h <;> cases h
  · have h2 := List.mem_map_of_mem Char.toLower h
    have hm2 : List.map Char.toLower m = markerLit := hm
    rw [hm2] at h2
    revert h2
    decide
  · cases h
  · exact absurd (hs2 '\n' h) (by decide)
  · cases h
  · cases h
  · exact absurd (hh2 '\n' h) (by decide)
  · exact absurd (ho2 '\n' h) (by decide)
  · exact absurd (hr2 '\n' h) (by decide)
  · cases h
  · cases h
  · cases h
  · exact absurd ((natDigits_spec n).2.1 '\n' h) (by decide)
  · exact htn h

theorem shortLine_no_newline (pad m owner repo : Str) (n : Nat) (tail : Str)
    (hpad : ∀ c ∈ pad, c = ' ' ∨ c = '\t') (hm : strToLower m = markerLit)
    (ho2 : ∀ c ∈ owner, segChar c = true)
    (hr2 : ∀ c ∈ repo, segChar c = true)
    (htn : '\n' ∉ tail) :
    '\n' ∉ shortLine pad m owner repo n tail := by
  have hchars : ∀ c : Char, c ∈ shortLine pad m owner repo n tail →
      (c ∈ pad ∨ c ∈ m ∨ c = ' ' ∨ c = '/' ∨ c = '#' ∨ c ∈ owner ∨ c ∈ repo
        ∨ c ∈ natDigits n ∨ c ∈ tail) := by
    intro c hc
    unfold shortLine at hc
    simp only [List.mem_append, List.mem_cons] at hc
    tauto
  intro hmem
  rcases hchars '\n' hmem with h | h | h | h | h | h | h | h | h
  · rcases hpad '\n' h with h | h <;> cases h
  · have h2 := List.mem_map_of_mem Char.toLower h
    have hm2 : List.map Char.toLower m = markerLit := hm
    rw [hm2] at h2
    revert h2
    decide
  · cases h
  · cases h
  · cases h
  · exact absurd (ho2 '\n' h) (by decide)
  · exact absurd (hr2 '\n' h) (by decide)
  · exact absurd ((natDigits_spec n).2.1 '\n' h) (by decide)
  · exact htn h

/-- `rustSplit '\n'` is a left inverse of `unlines` on nonempty line
lists whose lines are newline-free. -/
theorem rustSplit_unlines_of_ne (L : List Str) (hL : L ≠ [])
    (h : ∀ x ∈ L, '\n' ∉ x) :
    rustSplit '\n' (unlines L) = L := by
  cases L with
  | nil => exact absurd rfl hL
  | cons l ls => exact rustSplit_unlines l ls h

/-- The two bodies of the source's own split-across-lines tests. -/
def splitBody1 : List Str :=
  ["I want to talk about companion: but NOT reference it".toList,
   "I submitted it in https://github.com/paritytech/polkadot/pull/1234".toList]

def splitBody2 : List Str :=
  ["I want to talk about companion: but NOT reference it".toList,
   "I submitted it in paritytech/polkadot#1234".toList]

/-- C6: a body containing a well-formed long or short companion reference
on one physical line — case-insensitive marker, arbitrary indentation,
a number within `i64` range (larger numbers fail `.parse::<i64>()` and
the reference is skipped), arbitrary prose on the surrounding lines
(none of which itself scans as a companion reference) — parses to the
canonical
`https://<host>/<owner>/<repo>/pull/<n>` URL together with owner, repo
and the number, with any query suffix stripped; the source's own
split-across-lines test bodies parse to none; and the long form is tried
before the short form. -/
theorem c6_companion_parse :
    (∀ (pre post : List Str) (pad m scheme host owner repo : Str) (n : Nat)
        (tail : Str),
      (∀ l ∈ pre, scanLong l = none) →
      (∀ l ∈ pre ++ post, '\n' ∉ l) →
      (∀ c ∈ pad, c = ' ' ∨ c = '\t') →
      strToLower m = markerLit →
      scheme ≠ [] → (∀ c ∈ scheme, schemeChar c = true) →
      host ≠ [] → (∀ c ∈ host, segChar c = true) →
      owner ≠ [] → (∀ c ∈ owner, segChar c = true) →
      repo ≠ [] → (∀ c ∈ repo, segChar c = true) →
      (tail = [] ∨ ∃ c t, tail = c :: t ∧ c.isDigit = false) →
      '\n' ∉ tail →
      n ≤ i64Max →
      companion_parse
        (unlines (pre ++ longLine pad m scheme host owner repo n tail :: post))
        = some (canonicalUrl host owner repo (natDigits n), owner, repo, n))
  ∧ (∀ (pre post : List Str) (pad m owner repo : Str) (n : Nat) (tail : Str),
      (∀ l ∈ pre ++ shortLine pad m owner repo n tail :: post,
        scanLong l = none) →
      (∀ l ∈ pre, scanShort l = none) →
      (∀ l ∈ pre ++ post, '\n' ∉ l) →
      (∀ c ∈ pad, c = ' ' ∨ c = '\t') →
      strToLower m = markerLit →
      owner ≠ [] → (∀ c ∈ owner, segChar c = true) →
      repo ≠ [] → (∀ c ∈ repo, segChar c = true) →
      (tail = [] ∨ ∃ c t, tail = c :: t ∧ c.isDigit = false) →
      '\n' ∉ tail →
      n ≤ i64Max →
      companion_parse
        (unlines (pre ++ shortLine pad m owner repo n tail :: post))
        = some (canonicalUrl "github.com".toList owner repo (natDigits n),
            owner, repo, n))
  ∧ companion_parse (unlines splitBody1) = none
  ∧ companion_parse (unlines splitBody2) = none
  ∧ (∀ (body : Str) (r : Str × Str × Str × Nat),
      companion_parse_long body = some r → companion_parse body = some r) := by
  refine ⟨?_, ?_, by decide, by decide, ?_⟩
  · intro pre post pad m scheme host owner repo n tail hpre hnn hpad hm hs1
      hs2 hh1 hh2 ho1 ho2 hr1 hr2 ht htn hn
    have hline := scanLong_longLine pad m scheme host owner repo n tail hpad
      hm hs1 hs2 hh1 hh2 ho1 ho2 hr1 hr2 ht hn
    have hnl : ∀ x ∈ pre ++ longLine pad m scheme host owner repo n tail
        :: post, '\n' ∉ x := by
      intro x hx
      rcases List.mem_append.mp hx with h | h
      · exact hnn x (List.mem_append.mpr (Or.inl h))
      · rcases List.mem_cons.mp h with h | h
        · rw [h]
          exact longLine_no_newline pad m scheme host owner repo n tail hpad
            hm hs2 hh2 ho2 hr2 htn
        · exact hnn x (List.mem_append.mpr (Or.inr h))
    have hsplit := rustSplit_unlines_of_ne
      (pre ++ longLine pad m scheme host owner repo n tail :: post)
      (by simp) hnl
    have hlong : companion_parse_long
        (unlines (pre ++ longLine pad m scheme host owner repo n tail :: post))
        = some (canonicalUrl host owner repo (natDigits n), owner, repo, n) := by
      unfold companion_parse_long
      rw [hsplit]
      exact findSome_lines scanLong pre hpre _ post _ hline
    unfold companion_parse
    rw [hlong]
  · intro pre post pad m owner repo n tail halong hpres hnn hpad hm ho1 ho2
      hr1 hr2 ht htn hn
    have hline := scanShort_shortLine pad m owner repo n tail hpad hm ho1 ho2
      hr1 hr2 ht hn
    have hnl : ∀ x ∈ pre ++ shortLine pad m owner repo n tail :: post,
        '\n' ∉ x := by
      intro x hx
      rcases List.mem_append.mp hx with h | h
      · exact hnn x (List.mem_append.mpr (Or.inl h))
      · rcases List.mem_cons.mp h with h | h
        · rw [h]
          exact shortLine_no_newline pad m owner repo n tail hpad hm ho2 hr2
            htn
        · exact hnn x (List.mem_append.mpr (Or.inr h))
    have hsplit := rustSplit_unlines_of_ne
      (pre ++ shortLine pad m owner repo n tail :: post) (by simp) hnl
    have hlongnone : companion_parse_long
        (unlines (pre ++ shortLine pad m owner repo n tail :: post))
        = none := by
      unfold companion_parse_long
      rw [hsplit]
      exact findSome_none scanLong _ halong
    have hshort : companion_parse_short
        (unlines (pre ++ shortLine pad m owner repo n tail :: post))
        = some (canonicalUrl "github.com".toList owner repo (natDigits n),
            owner, repo, n) := by
      unfold companion_parse_short
      rw [hsplit]
      exact findSome_lines scanShort pre hpres _ post _ hline
    unfold companion_parse
    rw [hlongnone, hshort]
  · intro body r h
    unfold companion_parse
    rw [h]

/-- Closed instance of `c6_companion_parse`: the source's own positive
test vectors, long form with a query suffix and an uppercase-marker short
form, parse to the canonical URL of paritytech/polkadot pull 1234. -/
theorem c6_witness :
    companion_parse (unlines
      ["Companion line is in the middle".toList,
       longLine [] "Companion:".toList "https".toList "github.com".toList
         "paritytech".toList "polkadot".toList 1234
         "?extra_params=true".toList,
       "Final line".toList])
      = some (canonicalUrl "github.com".toList "paritytech".toList
          "polkadot".toList (natDigits 1234), "paritytech".toList,
          "polkadot".toList, 1234)
  ∧ companion_parse (unlines
      ["Companion line is in the middle".toList,
       shortLine "\t".toList "COMPANION:".toList "paritytech".toList
         "polkadot".toList 1234 [],
       "Final line".toList])
      = some (canonicalUrl "github.com".toList "paritytech".toList
          "polkadot".toList (natDigits 1234), "paritytech".toList,
          "polkadot".toList, 1234) :=
  ⟨c6_companion_parse.1 ["Companion line is in the middle".toList]
     ["Final line".toList] [] "Companion:".toList "https".toList
     "github.com".toList "paritytech".toList "polkadot".toList 1234
     "?extra_params=true".toList
     (by decide) (by decide) (by decide) (by decide) (by decide) (by decide)
     (by decide) (by decide) (by decide) (by decide) (by decide) (by decide)
     (Or.inr ⟨'?', "extra_params=true".toList, rfl, by decide⟩) (by decide)
     (by decide),
   c6_companion_parse.2.1 ["Companion line is in the middle".toList]
     ["Final line".toList] "\t".toList "COMPANION:".toList
     "paritytech".toList "polkadot".toList 1234 []
     (by decide) (by decide) (by decide) (by decide) (by decide) (by decide)
     (by decide) (by decide) (by decide) (Or.inl rfl) (by decide)
     (by decide)⟩

end Processbot
